import Mathlib

/-!
# Matchmaking & Session Coordination Engine — verification development

Shallow embedding of the Socket.IO random-chat server (the production
variant: CONFIG, rate limiting, validation, reaper phases, memory limits),
together with the simpler legacy `server.js` variant where the two differ.

State lives in JavaScript `Map`s; we model a `Map` as an association list
with the exact `Map` semantics: unique keys, `set` replaces in place when
the key is present and appends otherwise, `delete` removes the key,
iteration follows insertion order.
-/

namespace RandomChat

abbrev Handle := String
abbrev RoomId := String

/-- Model of `Map.get`: value of the first (only) pair with the given key. -/
def alGet {K V : Type} [DecidableEq K] : List (K × V) → K → Option V
  | [], _ => none
  | p :: ps, k => if p.1 = k then some p.2 else alGet ps k

/-- Model of `Map.has`. -/
def alHas {K V : Type} [DecidableEq K] (l : List (K × V)) (k : K) : Bool :=
  (alGet l k).isSome

/-- Model of `Map.set`: replace in place when present, append when absent. -/
def alSet {K V : Type} [DecidableEq K] : List (K × V) → K → V → List (K × V)
  | [], k, v => [(k, v)]
  | p :: ps, k, v => if p.1 = k then (k, v) :: ps else p :: alSet ps k v

/-- Model of `Map.delete`: remove every pair with the given key (at most one under
the no-duplicate-keys invariant that `Map` maintains). -/
def alDelete {K V : Type} [DecidableEq K] : List (K × V) → K → List (K × V)
  | [], _ => []
  | p :: ps, k => if p.1 = k then alDelete ps k else p :: alDelete ps k

def alKeys {K V : Type} (l : List (K × V)) : List K := l.map Prod.fst

/-- A JavaScript `Map` never holds two entries with the same key. -/
def NodupKeys {K V : Type} (l : List (K × V)) : Prop := (alKeys l).Nodup

instance {K V : Type} [DecidableEq K] (l : List (K × V)) :
    Decidable (NodupKeys l) := by
  unfold NodupKeys
  infer_instance

/-!
## Configuration (`CONFIG`, part_001 lines 19-51)

The memory ceilings and the two timeouts are environment-configurable
(`parseInt(process.env...) || default`), so they are parameters here,
with the documented defaults collected in `defaultConfig`.  The rate
limits are fixed constants in the source.
-/

structure Config where
  maxWaitingUsers : Nat
  maxActiveRooms : Nat
  queueTimeout : Nat
  roomTimeout : Nat
deriving DecidableEq

def defaultConfig : Config :=
  { maxWaitingUsers := 1000
    maxActiveRooms := 500
    queueTimeout := 5 * 60 * 1000
    roomTimeout := 30 * 60 * 1000 }

def MESSAGE_RATE_LIMIT : Nat := 10
def MESSAGE_RATE_WINDOW : Nat := 1000
def MEDIA_RATE_LIMIT : Nat := 3
def MEDIA_RATE_WINDOW : Nat := 5000
def MAX_USERNAME_LENGTH : Nat := 50
def MAX_INTERESTS : Nat := 10

/-!
## Data model
-/

/-- Preference profile as stored in `waitingUsers` (gender fields are the
strings the source compares with `===`). -/
structure User where
  username : String
  gender : String
  preferredGender : String
  interests : List String
  joinedAt : Nat
deriving DecidableEq

/-- Raw `join-queue` payload before validation (well-typed fields; the
dynamic `typeof` checks of the source are meta-level). -/
structure UserData where
  username : String
  gender : String
  preferredGender : String
  interests : List String
deriving DecidableEq

/-- A member record, `{ socketId, ...user }` as spread into a room record. -/
structure RoomMember where
  socketId : Handle
  user : User
deriving DecidableEq

/-- An active room (part_001 lines 603-607). -/
structure Room where
  user1 : RoomMember
  user2 : RoomMember
  createdAt : Nat
deriving DecidableEq

/-- Message object built by the `send-message` handler (lines 701-707). -/
structure ChatMessage where
  id : String
  senderId : Handle
  content : String
  type : String
  timestamp : Nat
deriving DecidableEq

/-- Rate-limit window entry `{ count, windowStart }`. -/
structure RateEntry where
  count : Nat
  windowStart : Nat
deriving DecidableEq

/-- Payload of `send-message`. -/
structure MsgData where
  content : String
  type : String
deriving DecidableEq

/-- The five engine maps (part_001 lines 69-75). -/
structure ServerState where
  waitingUsers : List (Handle × User)
  activeRooms : List (RoomId × Room)
  socketToRoom : List (Handle × RoomId)
  messageRateLimits : List (Handle × RateEntry)
  mediaRateLimits : List (Handle × RateEntry)
deriving DecidableEq

def initialState : ServerState := ⟨[], [], [], [], []⟩

/-- Outbound events the engine emits (socket-targeted, room-targeted and
broadcast-to-room-except-sender emissions are distinguished). -/
inductive Event where
  | errorEvent (dst : Handle) (message : String)
  | searching (dst : Handle)
  | matchFound (dst : Handle) (roomId : RoomId) (partner : User)
      (commonInterests : List String)
  | newMessage (roomId : RoomId) (msg : ChatMessage)
  | chatEnded (roomId : RoomId) (reason : String)
  | chatEndedBroadcast (sender : Handle) (roomId : RoomId) (reason : String)
  | partnerTyping (sender : Handle) (roomId : RoomId) (isTyping : Bool)
  | webrtcRelay (sender : Handle) (roomId : RoomId) (kind : String)
deriving DecidableEq

/-!
## Rate limiter (`checkRateLimit`, part_001 lines 229-253)
-/

/-- Pure core of `checkRateLimit`: takes the stored entry for the
connection (or `none` on first use), the current time and the limit and
window for the traffic class; returns whether the call is allowed and the
entry written back.  `now - windowStart` is ℕ-subtraction; the source
assumes a monotone clock (`now ≥ windowStart`), under which the two agree. -/
def checkRateLimit (prev : Option RateEntry) (now limit window : Nat) :
    Bool × RateEntry :=
  let userLimits := prev.getD ⟨0, now⟩
  let userLimits :=
    if now - userLimits.windowStart > window then ⟨0, now⟩ else userLimits
  let userLimits : RateEntry := ⟨userLimits.count + 1, userLimits.windowStart⟩
  (userLimits.count ≤ limit, userLimits)

/-- The stateful wrapper: pick the map/limit/window for the traffic class,
run `checkRateLimit`, write the entry back. -/
def applyRateLimit (h : Handle) (isMedia : Bool) (now : Nat)
    (s : ServerState) : Bool × ServerState :=
  if isMedia then
    let r := checkRateLimit (alGet s.mediaRateLimits h) now
        MEDIA_RATE_LIMIT MEDIA_RATE_WINDOW
    (r.1, { s with mediaRateLimits := alSet s.mediaRateLimits h r.2 })
  else
    let r := checkRateLimit (alGet s.messageRateLimits h) now
        MESSAGE_RATE_LIMIT MESSAGE_RATE_WINDOW
    (r.1, { s with messageRateLimits := alSet s.messageRateLimits h r.2 })

/-- Run `checkRateLimit` over a list of call times, collecting the verdicts
and threading the stored entry. -/
def runCalls (limit window : Nat) :
    Option RateEntry → List Nat → List Bool × Option RateEntry
  | e, [] => ([], e)
  | e, t :: ts =>
    let r := checkRateLimit e t limit window
    let rest := runCalls limit window (some r.2) ts
    (r.1 :: rest.1, rest.2)

/-!
## Matcher (`findMatch`, part_001 lines 258-309)

`Math.floor(Math.random() * bestMatches.length)` is a uniformly drawn
index in `[0, bestMatches.length)`; we abstract the draw as a natural
number `draw` and use the index `draw % bestMatches.length`, which ranges
over exactly the same indices (`draw < length` hits the index `draw`).
-/

structure MatchCand where
  user : User
  socketId : Handle
  score : Nat
  commonInterests : List String
deriving DecidableEq

/-- One iteration of the queue scan: skip the requester itself, check
bidirectional gender compatibility, score by shared interests. -/
def candOf (user : User) (socketId : Handle) (p : Handle × User) :
    Option MatchCand :=
  if p.1 = socketId then none
  else
    let currentUserGenderMatch :=
      user.preferredGender = "any" ∨ user.preferredGender = p.2.gender
    let waitingUserGenderMatch :=
      p.2.preferredGender = "any" ∨ p.2.preferredGender = user.gender
    if currentUserGenderMatch ∧ waitingUserGenderMatch then
      let commonInterests :=
        user.interests.filter (fun i => p.2.interests.contains i)
      some ⟨p.2, p.1, commonInterests.length, commonInterests⟩
    else none

def compatibleMatches (waiting : List (Handle × User)) (user : User)
    (socketId : Handle) : List MatchCand :=
  waiting.filterMap (candOf user socketId)

/-- The spec-side characterization of bidirectional gender compatibility
(spec §4.1), stated over the same string representation. -/
def genderCompatible (u w : User) : Prop :=
  (u.preferredGender = "any" ∨ u.preferredGender = w.gender) ∧
  (w.preferredGender = "any" ∨ w.preferredGender = u.gender)

instance : DecidablePred (fun p : User × User => genderCompatible p.1 p.2) :=
  fun _ => by unfold genderCompatible; infer_instance

instance (u w : User) : Decidable (genderCompatible u w) := by
  unfold genderCompatible; infer_instance

/-- The matcher `findMatch` (part_001 lines 258-309). -/
def findMatch (waiting : List (Handle × User)) (user : User)
    (socketId : Handle) (draw : Nat) : Option MatchCand :=
  let cms := compatibleMatches waiting user socketId
  if cms.length = 0 then none
  else
    let highestScore := (cms.map (·.score)).foldl Nat.max 0
    let bestMatches := cms.filter (fun m => m.score == highestScore)
    bestMatches.get? (draw % bestMatches.length)

/-!
## Input validation (`validateUserData`, part_001 lines 100-143)
-/

/-- Model of `username.trim()`: strip leading and trailing whitespace. -/
def jsTrim (s : String) : String :=
  ⟨((s.data.dropWhile Char.isWhitespace).reverse.dropWhile
      Char.isWhitespace).reverse⟩

/-- Model of `username.substring(0, n)`: keep the first `n` characters. -/
def takeChars (s : String) (n : Nat) : String := ⟨s.data.take n⟩

/-- Validation of the profile payload, `validateUserData`.  Returns the
sanitized profile fields or the exact
error string.  An empty username is falsy in JavaScript, hence invalid. -/
def validateUserData (d : UserData) : Except String UserData :=
  if d.username.length = 0 then .error "Invalid username"
  else if d.username.length > MAX_USERNAME_LENGTH then .error "Username too long"
  else if ¬(d.gender = "male" ∨ d.gender = "female") then .error "Invalid gender"
  else if ¬(d.preferredGender = "male" ∨ d.preferredGender = "female" ∨
      d.preferredGender = "any") then .error "Invalid preferred gender"
  else if d.interests.length > MAX_INTERESTS then .error "Too many interests"
  else .ok
    { username := takeChars (jsTrim d.username) MAX_USERNAME_LENGTH
      gender := d.gender
      preferredGender := d.preferredGender
      interests := (d.interests.filter
          (fun i => decide (0 < i.length ∧ i.length ≤ 50))).take MAX_INTERESTS }

/-!
## Event handlers (production variant, part_001 lines 559-860)

Each handler is a function `… → ServerState → ServerState × List Event`.
The transport layer is the collaborator: whether a socket is currently
connected (`io.sockets.sockets.get`) is passed in as the list `connected`;
`Date.now()` and the generated UUIDs are passed as arguments.
-/

/-- The `join-queue` handler (lines 559-646).  `newRoomId` is the fresh UUID,
`draw` abstracts the random tie-break index. -/
def joinQueue (connected : List Handle) (now : Nat) (newRoomId : RoomId)
    (draw : Nat) (h : Handle) (d : UserData) (s : ServerState) :
    ServerState × List Event :=
  match validateUserData d with
  | .error e => (s, [.errorEvent h e])
  | .ok v =>
    if alHas s.waitingUsers h ∨ alHas s.socketToRoom h then
      (s, [.errorEvent h "Already in queue or chat"])
    else
      let user : User := ⟨v.username, v.gender, v.preferredGender, v.interests, now⟩
      match findMatch s.waitingUsers user h draw with
      | some m =>
        let s1 := { s with waitingUsers := alDelete s.waitingUsers m.socketId }
        if ¬ connected.contains m.socketId then
          -- stale candidate: re-queue the requester, report still searching
          ({ s1 with waitingUsers := alSet s1.waitingUsers h user },
           [.searching h])
        else
          let room : Room := ⟨⟨h, user⟩, ⟨m.socketId, m.user⟩, now⟩
          ({ s1 with
              activeRooms := alSet s1.activeRooms newRoomId room
              socketToRoom :=
                alSet (alSet s1.socketToRoom h newRoomId) m.socketId newRoomId },
           [.matchFound h newRoomId m.user m.commonInterests,
            .matchFound m.socketId newRoomId user m.commonInterests])
      | none =>
        ({ s with waitingUsers := alSet s.waitingUsers h user }, [.searching h])

/-- The profile record `{ ...validData, joinedAt: Date.now() }` the
`join-queue` handler builds (lines 578-581). -/
def mkUser (v : UserData) (now : Nat) : User :=
  ⟨v.username, v.gender, v.preferredGender, v.interests, now⟩

/-- The room record stored on a successful match (lines 603-607). -/
def mkRoom (h : Handle) (u : User) (m : MatchCand) (now : Nat) : Room :=
  ⟨⟨h, u⟩, ⟨m.socketId, m.user⟩, now⟩

/-- The `leave-queue` handler (lines 651-658). -/
def leaveQueue (h : Handle) (s : ServerState) : ServerState × List Event :=
  ({ s with waitingUsers := alDelete s.waitingUsers h }, [])

/-- Rate-limit error text (lines 669-676) at the fixed window constants. -/
def rateLimitErrorMsg (isMedia : Bool) : String :=
  if isMedia then "Too many medias. Please wait 5 seconds."
  else "Too many messages. Please wait 1 seconds."

/-- The `send-message` handler (lines 663-721).  `vres` is the verdict of the
`validateMessage` collaborator (`some err` = rejected with that error):
per spec §1/§6 payload size/format checking is outside the engine, which
only sequences it between the rate-limit check and the room lookups. -/
def sendMessage (now : Nat) (msgId : String) (vres : Option String)
    (h : Handle) (data : MsgData) (s : ServerState) :
    ServerState × List Event :=
  let isMedia := data.type == "image" || data.type == "video"
  let rl := applyRateLimit h isMedia now s
  let s1 := rl.2
  if ¬ rl.1 then
    (s1, [.errorEvent h (rateLimitErrorMsg isMedia)])
  else
    match vres with
    | some err => (s1, [.errorEvent h err])
    | none =>
      match alGet s1.socketToRoom h with
      | none => (s1, [.errorEvent h "Not in a chat room"])
      | some roomId =>
        if ¬ alHas s1.activeRooms roomId then
          ({ s1 with socketToRoom := alDelete s1.socketToRoom h },
           [.errorEvent h "Chat room no longer exists"])
        else
          (s1, [.newMessage roomId ⟨msgId, h, data.content, data.type, now⟩])

/-- The `typing` handler (lines 810-819): forwarded to the other member only,
no state change. -/
def typingRelay (h : Handle) (isTyping : Bool) (s : ServerState) :
    ServerState × List Event :=
  match alGet s.socketToRoom h with
  | some roomId =>
    if alHas s.activeRooms roomId then (s, [.partnerTyping h roomId isTyping])
    else (s, [])
  | none => (s, [])

/-- WebRTC signaling handlers (lines 726-774): offer/answer/candidate all
share this shape; `kind` names the event. -/
def signalRelay (h : Handle) (kind : String) (s : ServerState) :
    ServerState × List Event :=
  match alGet s.socketToRoom h with
  | some roomId =>
    if alHas s.activeRooms roomId then (s, [.webrtcRelay h roomId kind])
    else (s, [])
  | none => (s, [])

/-- Delete both members' `socketToRoom` bindings of a room (the
`socketToRoom.delete(room.user1.socketId); …delete(room.user2.socketId)`
pair that every room-teardown path performs). -/
def removeRoomMappings (m : List (Handle × RoomId)) (room : Room) :
    List (Handle × RoomId) :=
  alDelete (alDelete m room.user1.socketId) room.user2.socketId

/-- The `end-chat` handler (lines 779-805). -/
def endChat (h : Handle) (s : ServerState) : ServerState × List Event :=
  match alGet s.socketToRoom h with
  | none => (s, [])
  | some roomId =>
    let s1 :=
      match alGet s.activeRooms roomId with
      | some room =>
        { s with socketToRoom := removeRoomMappings s.socketToRoom room }
      | none => s
    ({ s1 with activeRooms := alDelete s1.activeRooms roomId },
     [.chatEnded roomId "User left the chat"])

/-- The `disconnect` handler (lines 824-860). -/
def disconnect (h : Handle) (s : ServerState) : ServerState × List Event :=
  let s := { s with
    waitingUsers := alDelete s.waitingUsers h
    messageRateLimits := alDelete s.messageRateLimits h
    mediaRateLimits := alDelete s.mediaRateLimits h }
  match alGet s.socketToRoom h with
  | none => (s, [])
  | some roomId =>
    let s1 :=
      match alGet s.activeRooms roomId with
      | some room =>
        let partnerSocketId :=
          if room.user1.socketId = h then room.user2.socketId
          else room.user1.socketId
        { s with socketToRoom := alDelete s.socketToRoom partnerSocketId }
      | none => s
    ({ s1 with
        socketToRoom := alDelete s1.socketToRoom h
        activeRooms := alDelete s1.activeRooms roomId },
     [.chatEndedBroadcast h roomId "Partner disconnected"])

/-!
## Reaper phases (part_001 lines 314-415, run every `CLEANUP_INTERVAL`)
-/

/-- Queue phase `cleanupWaitingUsers` (lines 314-328): silently drop waiting entries
older than the queue timeout. -/
def cleanupWaitingUsers (cfg : Config) (now : Nat) (s : ServerState) :
    ServerState × List Event :=
  let keep := fun p : Handle × User => ¬ (now - p.2.joinedAt > cfg.queueTimeout)
  ({ s with waitingUsers := s.waitingUsers.filter (fun p => keep p) }, [])

/-- Room phase `cleanupStaleRooms` (lines 333-362) of the sweep.  A
room is evicted iff `now - createdAt > roomTimeout` — the room record has
no last-activity field — and the members are notified with reason
`"Session timeout"`. -/
def cleanupStaleRooms (cfg : Config) (now : Nat) (s : ServerState) :
    ServerState × List Event :=
  let isStale := fun p : RoomId × Room => now - p.2.createdAt > cfg.roomTimeout
  let stale := s.activeRooms.filter (fun p => isStale p)
  let rooms := s.activeRooms.filter (fun p => ¬ isStale p)
  let mappings := stale.foldl (fun m p => removeRoomMappings m p.2) s.socketToRoom
  ({ s with activeRooms := rooms, socketToRoom := mappings },
   stale.map (fun p => .chatEnded p.1 "Session timeout"))

/-- Rate phase `cleanupRateLimits` (lines 367-381): purge windows untouched for ten
window durations. -/
def cleanupRateLimits (now : Nat) (s : ServerState) :
    ServerState × List Event :=
  let msgKeep := fun p : Handle × RateEntry =>
    ¬ (now - p.2.windowStart > MESSAGE_RATE_WINDOW * 10)
  let mediaKeep := fun p : Handle × RateEntry =>
    ¬ (now - p.2.windowStart > MEDIA_RATE_WINDOW * 10)
  ({ s with
      messageRateLimits := s.messageRateLimits.filter (fun p => msgKeep p)
      mediaRateLimits := s.mediaRateLimits.filter (fun p => mediaKeep p) }, [])

/-- Stable ascending insertion by a ℕ key: the observable behaviour of
`Array.sort((a, b) => key(a) - key(b))`. -/
def insertByKey {α : Type} (key : α → Nat) (x : α) : List α → List α
  | [] => [x]
  | y :: ys => if key x ≤ key y then x :: y :: ys else y :: insertByKey key x ys

def sortByKey {α : Type} (key : α → Nat) : List α → List α
  | [] => []
  | x :: xs => insertByKey key x (sortByKey key xs)

/-- One room eviction of the capacity loop (lines 406-411): delete both
members' bindings and the room itself. -/
def evictRoom (st : ServerState) (p : RoomId × Room) : ServerState :=
  { st with
      socketToRoom := removeRoomMappings st.socketToRoom p.2
      activeRooms := alDelete st.activeRooms p.1 }

/-- First block of `enforceMemoryLimits` (lines 388-398): trim the oldest
excess waiting entries, silently. -/
def enforceWaitingLimit (cfg : Config) (s : ServerState) : ServerState :=
  if s.waitingUsers.length > cfg.maxWaitingUsers then
    let excess := s.waitingUsers.length - cfg.maxWaitingUsers
    let sorted := sortByKey (fun p => p.2.joinedAt) s.waitingUsers
    let trimmed :=
      (sorted.take excess).foldl (fun m p => alDelete m p.1) s.waitingUsers
    { s with waitingUsers := trimmed }
  else s

/-- Second block of `enforceMemoryLimits` (lines 401-414): evict the oldest
excess rooms, silently. -/
def enforceRoomLimit (cfg : Config) (s : ServerState) : ServerState :=
  if s.activeRooms.length > cfg.maxActiveRooms then
    let excess := s.activeRooms.length - cfg.maxActiveRooms
    let sorted := sortByKey (fun p => p.2.createdAt) s.activeRooms
    (sorted.take excess).foldl evictRoom s
  else s

/-- Capacity phase `enforceMemoryLimits` (lines 386-415): when a ceiling is exceeded,
drop the oldest excess entries/rooms.  No event is emitted anywhere in
this function. -/
def enforceMemoryLimits (cfg : Config) (s : ServerState) :
    ServerState × List Event :=
  (enforceRoomLimit cfg (enforceWaitingLimit cfg s), [])

/-!
## Operations, for the cross-operation invariant (C5)
-/

/-- Every engine operation, with its inputs. -/
inductive Op where
  | join (connected : List Handle) (now : Nat) (rid : RoomId) (draw : Nat)
      (h : Handle) (d : UserData)
  | leave (h : Handle)
  | message (now : Nat) (mid : String) (vres : Option String) (h : Handle)
      (data : MsgData)
  | typing (h : Handle) (b : Bool)
  | signal (h : Handle) (kind : String)
  | endSession (h : Handle)
  | drop (h : Handle)
  | sweepQueue (now : Nat)
  | sweepRooms (now : Nat)
  | sweepRate (now : Nat)
  | sweepCapacity
deriving DecidableEq

def applyOp (cfg : Config) (op : Op) (s : ServerState) :
    ServerState × List Event :=
  match op with
  | .join connected now rid draw h d => joinQueue connected now rid draw h d s
  | .leave h => leaveQueue h s
  | .message now mid vres h data => sendMessage now mid vres h data s
  | .typing h b => typingRelay h b s
  | .signal h kind => signalRelay h kind s
  | .endSession h => endChat h s
  | .drop h => disconnect h s
  | .sweepQueue now => cleanupWaitingUsers cfg now s
  | .sweepRooms now => cleanupStaleRooms cfg now s
  | .sweepRate now => cleanupRateLimits now s
  | .sweepCapacity => enforceMemoryLimits cfg s

/-- The C5 invariant: a handle is never simultaneously a waiting-queue key
and a socket-to-room key, and the waiting queue holds at most one entry
per handle. -/
def queueSessionDisjoint (s : ServerState) : Prop :=
  (∀ h : Handle, (alGet s.waitingUsers h).isSome →
    (alGet s.socketToRoom h).isSome → False) ∧ NodupKeys s.waitingUsers

/-!
## Legacy variant (`src/server.js`)

Its `findMatch` is the same algorithm; its `join-queue` handler differs:
no validation, no already-queued guard, and no graceful-failure path when
the matched candidate's socket is gone — the room is created regardless
(server.js lines 234-326).
-/

/-- Legacy `join-queue` (server.js lines 208-341). -/
def joinQueueLegacy (connected : List Handle) (now : Nat) (newRoomId : RoomId)
    (draw : Nat) (h : Handle) (d : UserData) (s : ServerState) :
    ServerState × List Event :=
  let user : User := ⟨d.username, d.gender, d.preferredGender, d.interests, now⟩
  match findMatch s.waitingUsers user h draw with
  | some m =>
    let s1 := { s with waitingUsers := alDelete s.waitingUsers m.socketId }
    let room : Room := ⟨⟨h, user⟩, ⟨m.socketId, m.user⟩, now⟩
    let s2 := { s1 with
        activeRooms := alSet s1.activeRooms newRoomId room
        socketToRoom :=
          alSet (alSet s1.socketToRoom h newRoomId) m.socketId newRoomId }
    let commonInterests :=
      user.interests.filter (fun i => m.user.interests.contains i)
    (s2,
      .matchFound h newRoomId m.user commonInterests ::
        (if connected.contains m.socketId then
          [.matchFound m.socketId newRoomId user commonInterests]
        else []))
  | none =>
    ({ s with waitingUsers := alSet s.waitingUsers h user }, [.searching h])

/-!
## Map laws
-/

section MapLaws

variable {K V W : Type} [DecidableEq K]

theorem alKeys_cons (p : K × V) (ps : List (K × V)) :
    alKeys (p :: ps) = p.1 :: alKeys ps := rfl

theorem nodupKeys_cons (p : K × V) (ps : List (K × V)) :
    NodupKeys (p :: ps) ↔ p.1 ∉ alKeys ps ∧ NodupKeys ps := by
  simp [NodupKeys, alKeys_cons, List.nodup_cons]

theorem alGet_delete_self (l : List (K × V)) (k : K) :
    alGet (alDelete l k) k = none := by
  induction l with
  | nil => rfl
  | cons p ps ih =>
    by_cases hpk : p.1 = k <;> simp [alDelete, alGet, hpk, ih]

theorem alGet_delete_ne (l : List (K × V)) (k k' : K) (hne : k' ≠ k) :
    alGet (alDelete l k) k' = alGet l k' := by
  induction l with
  | nil => rfl
  | cons p ps ih =>
    by_cases hpk : p.1 = k
    · subst hpk
      simp [alDelete, alGet, Ne.symm hne, ih]
    · by_cases hpk' : p.1 = k' <;>
        simp [alDelete, alGet, hpk, hpk', hne, ih]

theorem isSome_alGet_delete (l : List (K × V)) (k k' : K)
    (h : (alGet (alDelete l k) k').isSome) : (alGet l k').isSome := by
  by_cases hne : k' = k
  · subst hne; rw [alGet_delete_self] at h; exact absurd h (by simp)
  · rwa [alGet_delete_ne l k k' hne] at h

theorem alGet_set_self (l : List (K × V)) (k : K) (v : V) :
    alGet (alSet l k v) k = some v := by
  induction l with
  | nil => simp [alSet, alGet]
  | cons p ps ih =>
    by_cases hpk : p.1 = k <;> simp [alSet, alGet, hpk, ih]

theorem alGet_set_ne (l : List (K × V)) (k k' : K) (v : V) (hne : k' ≠ k) :
    alGet (alSet l k v) k' = alGet l k' := by
  induction l with
  | nil => simp [alSet, alGet, Ne.symm hne]
  | cons p ps ih =>
    by_cases hpk : p.1 = k
    · subst hpk
      simp [alSet, alGet, Ne.symm hne]
    · by_cases hpk' : p.1 = k' <;>
        simp [alSet, alGet, hpk, hpk', hne, ih]

theorem isSome_alGet_filter (l : List (K × V)) (p : K × V → Bool) (k : K)
    (h : (alGet (l.filter p) k).isSome) : (alGet l k).isSome := by
  induction l with
  | nil => simpa [alGet] using h
  | cons q qs ih =>
    by_cases hq : p q
    · rw [List.filter_cons_of_pos hq] at h
      by_cases hk : q.1 = k <;> simp_all [alGet]
    · rw [List.filter_cons_of_neg (by simpa using hq)] at h
      by_cases hk : q.1 = k
      · simp [alGet, hk]
      · simpa [alGet, hk] using ih h

theorem isSome_foldl_alDelete {W : Type} (xs : List (K × W))
    (m : List (K × V)) (k : K)
    (h : (alGet (xs.foldl (fun acc p => alDelete acc p.1) m) k).isSome) :
    (alGet m k).isSome := by
  induction xs generalizing m with
  | nil => simpa using h
  | cons x xs ih =>
    exact isSome_alGet_delete _ _ _ (ih _ (by simpa using h))

theorem mem_alKeys_of_isSome (l : List (K × V)) (k : K)
    (h : (alGet l k).isSome) : k ∈ alKeys l := by
  induction l with
  | nil => simpa [alGet] using h
  | cons p ps ih =>
    by_cases hk : p.1 = k
    · rw [alKeys_cons, ← hk]; exact List.mem_cons_self _ _
    · simp only [alGet, hk, if_false] at h
      rw [alKeys_cons]
      exact List.mem_cons_of_mem _ (ih h)

theorem alKeys_delete_sub (l : List (K × V)) (k k' : K)
    (h : k' ∈ alKeys (alDelete l k)) : k' ∈ alKeys l := by
  induction l with
  | nil => simpa [alDelete, alKeys] using h
  | cons p ps ih =>
    by_cases hpk : p.1 = k
    · simp only [alDelete, hpk, if_true] at h
      rw [alKeys_cons]
      exact List.mem_cons_of_mem _ (ih h)
    · simp only [alDelete, hpk, if_false, alKeys_cons] at h
      rw [alKeys_cons]
      rcases List.mem_cons.mp h with h1 | h1
      · exact h1 ▸ List.mem_cons_self _ _
      · exact List.mem_cons_of_mem _ (ih h1)

theorem nodupKeys_delete (l : List (K × V)) (k : K)
    (h : NodupKeys l) : NodupKeys (alDelete l k) := by
  induction l with
  | nil => simpa [alDelete] using h
  | cons p ps ih =>
    obtain ⟨hp, hps⟩ := (nodupKeys_cons p ps).mp h
    by_cases hpk : p.1 = k
    · simp only [alDelete, hpk, if_true]
      exact ih hps
    · simp only [alDelete, hpk, if_false]
      exact (nodupKeys_cons _ _).mpr
        ⟨fun hm => hp (alKeys_delete_sub ps k p.1 hm), ih hps⟩

theorem mem_alKeys_set (l : List (K × V)) (k k' : K) (v : V)
    (h : k' ∈ alKeys (alSet l k v)) : k' ∈ alKeys l ∨ k' = k := by
  induction l with
  | nil =>
    right
    simpa [alSet, alKeys] using h
  | cons p ps ih =>
    by_cases hpk : p.1 = k
    · simp only [alSet, hpk, if_true, alKeys_cons] at h
      rcases List.mem_cons.mp h with h1 | h1
      · right; exact h1
      · left; rw [alKeys_cons]; exact List.mem_cons_of_mem _ h1
    · simp only [alSet, hpk, if_false, alKeys_cons] at h
      rcases List.mem_cons.mp h with h1 | h1
      · left; rw [alKeys_cons]; exact h1 ▸ List.mem_cons_self _ _
      · rcases ih h1 with h2 | h2
        · left; rw [alKeys_cons]; exact List.mem_cons_of_mem _ h2
        · right; exact h2

theorem nodupKeys_set (l : List (K × V)) (k : K) (v : V)
    (h : NodupKeys l) : NodupKeys (alSet l k v) := by
  induction l with
  | nil => simp [NodupKeys, alSet, alKeys]
  | cons p ps ih =>
    obtain ⟨hp, hps⟩ := (nodupKeys_cons p ps).mp h
    by_cases hpk : p.1 = k
    · subst hpk
      simp only [alSet, if_true]
      exact (nodupKeys_cons _ _).mpr ⟨hp, hps⟩
    · simp only [alSet, hpk, if_false]
      refine (nodupKeys_cons _ _).mpr ⟨?_, ih hps⟩
      intro hm
      rcases mem_alKeys_set ps k p.1 v hm with h1 | h1
      · exact hp h1
      · exact hpk h1

theorem nodupKeys_filter (l : List (K × V)) (p : K × V → Bool)
    (h : NodupKeys l) : NodupKeys (l.filter p) := by
  have hsub : List.Sublist (alKeys (l.filter p)) (alKeys l) :=
    (List.filter_sublist l).map Prod.fst
  exact List.Nodup.sublist hsub h

theorem nodupKeys_foldl_alDelete {W : Type} (xs : List (K × W))
    (m : List (K × V)) (h : NodupKeys m) :
    NodupKeys (xs.foldl (fun acc p => alDelete acc p.1) m) := by
  induction xs generalizing m with
  | nil => simpa using h
  | cons x xs ih => simpa using ih _ (nodupKeys_delete m x.1 h)

theorem alGet_of_mem_nodup (l : List (K × V)) (k : K) (v : V)
    (hn : NodupKeys l) (hm : (k, v) ∈ l) : alGet l k = some v := by
  induction l with
  | nil => cases hm
  | cons p ps ih =>
    obtain ⟨hp, hps⟩ := (nodupKeys_cons p ps).mp hn
    rcases List.mem_cons.mp hm with h1 | h1
    · rw [← h1]; simp [alGet]
    · have hk : p.1 ≠ k := by
        intro he
        exact hp (he ▸ List.mem_map_of_mem Prod.fst h1)
      simp only [alGet, hk, if_false]
      exact ih hps h1

theorem alGet_filter_of_mem (l : List (K × V)) (p : K × V → Bool) (k : K)
    (v : V) (hn : NodupKeys l) (hm : (k, v) ∈ l) :
    alGet (l.filter p) k = if p (k, v) then some v else none := by
  induction l with
  | nil => cases hm
  | cons q qs ih =>
    obtain ⟨hq, hqs⟩ := (nodupKeys_cons q qs).mp hn
    rcases List.mem_cons.mp hm with h1 | h1
    · rw [← h1] at hq ⊢
      by_cases hpq : p (k, v)
      · simp [List.filter_cons_of_pos hpq, alGet, hpq]
      · have hnone : alGet (qs.filter p) k = none := by
          cases hres : alGet (qs.filter p) k with
          | none => rfl
          | some w =>
            exact absurd
              (mem_alKeys_of_isSome qs k
                (isSome_alGet_filter qs p k (by simp [hres]))) hq
        simp [List.filter_cons_of_neg (by simpa using hpq), hnone, hpq]
    · have hk : q.1 ≠ k := by
        intro he
        exact hq (he ▸ List.mem_map_of_mem Prod.fst h1)
      by_cases hpq : p q
      · simp [List.filter_cons_of_pos hpq, alGet, hk, ih hqs h1]
      · simp [List.filter_cons_of_neg (by simpa using hpq), ih hqs h1]

end MapLaws

/-!
## Matcher lemmas
-/

theorem candOf_eq_some (user : User) (sid : Handle) (p : Handle × User)
    (m : MatchCand) (h : candOf user sid p = some m) :
    p.1 ≠ sid ∧ genderCompatible user p.2 ∧
      m = ⟨p.2, p.1,
        (user.interests.filter (fun i => p.2.interests.contains i)).length,
        user.interests.filter (fun i => p.2.interests.contains i)⟩ := by
  simp only [candOf] at h
  split at h
  · exact absurd h (by simp)
  · rename_i h1
    split at h
    · rename_i h2
      exact ⟨h1, h2, (Option.some.inj h).symm⟩
    · exact absurd h (by simp)

theorem candOf_of_compatible (user : User) (sid : Handle) (p : Handle × User)
    (h1 : p.1 ≠ sid) (h2 : genderCompatible user p.2) :
    candOf user sid p = some ⟨p.2, p.1,
        (user.interests.filter (fun i => p.2.interests.contains i)).length,
        user.interests.filter (fun i => p.2.interests.contains i)⟩ := by
  have h2' : (user.preferredGender = "any" ∨ user.preferredGender = p.2.gender) ∧
      (p.2.preferredGender = "any" ∨ p.2.preferredGender = user.gender) := h2
  simp only [candOf]
  rw [if_neg h1, if_pos h2']

theorem mem_compatibleMatches (waiting : List (Handle × User)) (user : User)
    (sid : Handle) (m : MatchCand)
    (h : m ∈ compatibleMatches waiting user sid) :
    ∃ p ∈ waiting, candOf user sid p = some m :=
  List.mem_filterMap.mp (by simpa [compatibleMatches] using h)

theorem foldl_max_init_le (l : List Nat) (a : Nat) : a ≤ l.foldl Nat.max a := by
  induction l generalizing a with
  | nil => exact Nat.le_refl a
  | cons y ys ih =>
    exact Nat.le_trans (Nat.le_max_left a y) (ih (Nat.max a y))

theorem foldl_max_le (l : List Nat) (a : Nat) (x : Nat) (hx : x ∈ l) :
    x ≤ l.foldl Nat.max a := by
  induction l generalizing a with
  | nil => cases hx
  | cons y ys ih =>
    rcases List.mem_cons.mp hx with h1 | h1
    · subst h1
      exact Nat.le_trans (Nat.le_max_right a x)
        (foldl_max_init_le ys (Nat.max a x))
    · exact ih (Nat.max a y) h1

theorem foldl_max_mem (l : List Nat) (a : Nat) :
    l.foldl Nat.max a ∈ l ∨ l.foldl Nat.max a = a := by
  induction l generalizing a with
  | nil => right; rfl
  | cons y ys ih =>
    rcases ih (Nat.max a y) with h1 | h1
    · left; exact List.mem_cons_of_mem _ h1
    · rcases Nat.le_total a y with h2 | h2
      · left
        have : (y :: ys).foldl Nat.max a = y := by
          simpa [Nat.max_eq_right h2] using h1
        rw [this]
        exact List.mem_cons_self _ _
      · right; simpa [Nat.max_eq_left h2] using h1

/-- The maximum score is attained when any compatible candidate exists. -/
theorem highestScore_attained (cms : List MatchCand) (hne : cms ≠ []) :
    ∃ c ∈ cms, c.score = (cms.map (·.score)).foldl Nat.max 0 := by
  rcases foldl_max_mem (cms.map (·.score)) 0 with h1 | h1
  · rcases List.mem_map.mp h1 with ⟨c, hc, hcs⟩
    exact ⟨c, hc, hcs⟩
  · rcases cms with _ | ⟨c, cs⟩
    · exact absurd rfl hne
    · refine ⟨c, by simp, ?_⟩
      have hle : c.score ≤ ((c :: cs).map (·.score)).foldl Nat.max 0 :=
        foldl_max_le _ 0 c.score (by simp)
      omega

/-- The score fold reached by `findMatch` (`Math.max(...scores)`). -/
def highestScoreOf (cms : List MatchCand) : Nat :=
  (cms.map (·.score)).foldl Nat.max 0

/-- The tied set `bestMatches` built by `findMatch`. -/
def bestMatchesOf (cms : List MatchCand) : List MatchCand :=
  cms.filter (fun m => m.score == highestScoreOf cms)

theorem findMatch_eq (waiting : List (Handle × User)) (user : User)
    (sid : Handle) (draw : Nat)
    (hne : compatibleMatches waiting user sid ≠ []) :
    findMatch waiting user sid draw =
      (bestMatchesOf (compatibleMatches waiting user sid)).get?
        (draw % (bestMatchesOf (compatibleMatches waiting user sid)).length) := by
  unfold findMatch bestMatchesOf highestScoreOf
  rw [if_neg (by simpa [List.length_eq_zero] using hne)]

theorem bestMatchesOf_ne_nil (cms : List MatchCand) (hne : cms ≠ []) :
    bestMatchesOf cms ≠ [] := by
  obtain ⟨c, hc, hcs⟩ := highestScore_attained cms hne
  intro hnil
  have hmem : c ∈ bestMatchesOf cms :=
    List.mem_filter.mpr ⟨hc, by simp [hcs, highestScoreOf]⟩
  rw [hnil] at hmem
  cases hmem

theorem mem_bestMatchesOf (cms : List MatchCand) (m : MatchCand)
    (h : m ∈ bestMatchesOf cms) : m ∈ cms ∧ m.score = highestScoreOf cms := by
  have := List.mem_filter.mp h
  exact ⟨this.1, by simpa using this.2⟩

theorem findMatch_mem_best (waiting : List (Handle × User)) (user : User)
    (sid : Handle) (draw : Nat) (m : MatchCand)
    (h : findMatch waiting user sid draw = some m) :
    m ∈ compatibleMatches waiting user sid ∧
      m.score = highestScoreOf (compatibleMatches waiting user sid) := by
  by_cases hne : compatibleMatches waiting user sid = []
  · unfold findMatch at h
    rw [if_pos (by simp [hne])] at h
    cases h
  · rw [findMatch_eq waiting user sid draw hne] at h
    exact mem_bestMatchesOf _ m (List.get?_mem h)

theorem findMatch_hits_tied (waiting : List (Handle × User)) (user : User)
    (sid : Handle) (c : MatchCand)
    (hc : c ∈ compatibleMatches waiting user sid)
    (hcs : c.score = highestScoreOf (compatibleMatches waiting user sid)) :
    ∃ draw, findMatch waiting user sid draw = some c := by
  have hne : compatibleMatches waiting user sid ≠ [] := by
    intro hnil; rw [hnil] at hc; cases hc
  have hcb : c ∈ bestMatchesOf (compatibleMatches waiting user sid) :=
    List.mem_filter.mpr ⟨hc, by simp [hcs]⟩
  obtain ⟨i, hget⟩ := List.mem_iff_get.mp hcb
  refine ⟨i, ?_⟩
  rw [findMatch_eq waiting user sid i hne, Nat.mod_eq_of_lt i.isLt,
    List.get?_eq_get i.isLt]
  simpa using congrArg some hget

theorem findMatch_of_unique_max (waiting : List (Handle × User)) (user : User)
    (sid : Handle) (c : MatchCand)
    (hc : c ∈ compatibleMatches waiting user sid)
    (hcs : c.score = highestScoreOf (compatibleMatches waiting user sid))
    (huniq : ∀ c' ∈ compatibleMatches waiting user sid,
      c'.score = highestScoreOf (compatibleMatches waiting user sid) → c' = c)
    (draw : Nat) : findMatch waiting user sid draw = some c := by
  have hne : compatibleMatches waiting user sid ≠ [] := by
    intro hnil; rw [hnil] at hc; cases hc
  have hbne := bestMatchesOf_ne_nil _ hne
  have hlt : draw % (bestMatchesOf (compatibleMatches waiting user sid)).length <
      (bestMatchesOf (compatibleMatches waiting user sid)).length :=
    Nat.mod_lt _ (List.length_pos.mpr hbne)
  rw [findMatch_eq waiting user sid draw hne, List.get?_eq_get hlt]
  have hmem := List.get_mem (bestMatchesOf (compatibleMatches waiting user sid))
    _ hlt
  obtain ⟨h1, h2⟩ := mem_bestMatchesOf _ _ hmem
  exact congrArg some (huniq _ h1 h2)

/-- Claim C2 — the matcher treats a waiting entry as compatible iff gender
compatibility holds in both directions (requester's desired gender is
`"any"` or equals the candidate's self gender, and symmetrically), and a
returned candidate always satisfies both directions. -/
theorem matcher_gender_bidirectional
    (waiting : List (Handle × User)) (user : User) (sid : Handle) :
    (∀ p ∈ waiting, p.1 ≠ sid →
      ((∃ m ∈ compatibleMatches waiting user sid,
          m.socketId = p.1 ∧ m.user = p.2) ↔ genderCompatible user p.2)) ∧
    (∀ draw m, findMatch waiting user sid draw = some m →
      (user.preferredGender = "any" ∨ user.preferredGender = m.user.gender) ∧
      (m.user.preferredGender = "any" ∨ m.user.preferredGender = user.gender)) := by
  constructor
  · intro p hp hps
    constructor
    · rintro ⟨m, hm, hsid, huser⟩
      obtain ⟨q, hq, hcand⟩ := mem_compatibleMatches waiting user sid m hm
      obtain ⟨_, hcompat, hmeq⟩ := candOf_eq_some user sid q m hcand
      rw [← huser, hmeq]
      exact hcompat
    · intro hcompat
      refine ⟨⟨p.2, p.1,
          (user.interests.filter (fun i => p.2.interests.contains i)).length,
          user.interests.filter (fun i => p.2.interests.contains i)⟩,
        ?_, rfl, rfl⟩
      exact List.mem_filterMap.mpr
        ⟨p, hp, candOf_of_compatible user sid p hps hcompat⟩
  · intro draw m hm
    obtain ⟨hmem, _⟩ := findMatch_mem_best waiting user sid draw m hm
    obtain ⟨q, hq, hcand⟩ := mem_compatibleMatches waiting user sid m hmem
    obtain ⟨_, hcompat, hmeq⟩ := candOf_eq_some user sid q m hcand
    rw [hmeq]
    exact hcompat

/-- Claim C2 witness: a concrete two-entry queue in which the returned
candidate is gender-compatible and the iff characterization evaluates. -/
theorem matcher_gender_bidirectional_witness :
    let uA : User := ⟨"alice", "female", "male", ["music"], 0⟩
    let uB : User := ⟨"bob", "male", "female", ["music"], 0⟩
    let uC : User := ⟨"cara", "female", "any", ["music"], 0⟩
    ((∃ m ∈ compatibleMatches [("b", uB), ("c", uC)] uA "a",
        m.socketId = "b" ∧ m.user = uB) ↔ genderCompatible uA uB) := by
  intro uA uB uC
  exact (matcher_gender_bidirectional [("b", uB), ("c", uC)] uA "a").1
    ("b", uB) (by simp) (by decide)

/-- Claim C3 — a returned candidate carries the maximum interest score over
all gender-compatible waiting entries; every candidate tied at the maximum
is returned for some draw; a unique maximum is returned for every draw. -/
theorem matcher_max_score_tiebreak
    (waiting : List (Handle × User)) (user : User) (sid : Handle) :
    (∀ draw m, findMatch waiting user sid draw = some m →
      m.score = highestScoreOf (compatibleMatches waiting user sid) ∧
      ∀ c ∈ compatibleMatches waiting user sid, c.score ≤ m.score) ∧
    (∀ c ∈ compatibleMatches waiting user sid,
      c.score = highestScoreOf (compatibleMatches waiting user sid) →
      ∃ draw, findMatch waiting user sid draw = some c) ∧
    (∀ c ∈ compatibleMatches waiting user sid,
      c.score = highestScoreOf (compatibleMatches waiting user sid) →
      (∀ c' ∈ compatibleMatches waiting user sid,
        c'.score = highestScoreOf (compatibleMatches waiting user sid) →
        c' = c) →
      ∀ draw, findMatch waiting user sid draw = some c) := by
  refine ⟨?_, ?_, ?_⟩
  · intro draw m hm
    obtain ⟨hmem, hsc⟩ := findMatch_mem_best waiting user sid draw m hm
    refine ⟨hsc, fun c hc => ?_⟩
    rw [hsc]
    exact foldl_max_le _ 0 c.score (List.mem_map_of_mem _ hc)
  · exact findMatch_hits_tied waiting user sid
  · intro c hc hcs huniq draw
    exact findMatch_of_unique_max waiting user sid c hc hcs huniq draw

/-- Claim C3 witness: a concrete queue with two candidates tied at score 1;
the tied candidate `cB` is selected for some draw. -/
theorem matcher_max_score_tiebreak_witness :
    let uA : User := ⟨"alice", "female", "male", ["music"], 0⟩
    let uB : User := ⟨"bob", "male", "female", ["music"], 0⟩
    let uD : User := ⟨"dan", "male", "any", ["music"], 0⟩
    let cB : MatchCand := ⟨uB, "b", 1, ["music"]⟩
    ∃ draw, findMatch [("b", uB), ("d", uD)] uA "a" draw = some cB := by
  intro uA uB uD cB
  exact (matcher_max_score_tiebreak [("b", uB), ("d", uD)] uA "a").2.1 cB
    (by decide) (by decide)

/-!
## Invariant machinery (C5)
-/

theorem findMatch_socketId_ne (waiting : List (Handle × User)) (user : User)
    (sid : Handle) (draw : Nat) (m : MatchCand)
    (h : findMatch waiting user sid draw = some m) : m.socketId ≠ sid := by
  obtain ⟨hmem, _⟩ := findMatch_mem_best waiting user sid draw m h
  obtain ⟨q, _, hcand⟩ := mem_compatibleMatches waiting user sid m hmem
  obtain ⟨hne, _, hmeq⟩ := candOf_eq_some user sid q m hcand
  rw [hmeq]
  exact hne

theorem isSome_foldl_removeRoomMappings (xs : List (RoomId × Room))
    (m : List (Handle × RoomId)) (k : Handle)
    (h : (alGet (xs.foldl (fun acc p => removeRoomMappings acc p.2) m) k).isSome) :
    (alGet m k).isSome := by
  induction xs generalizing m with
  | nil => simpa using h
  | cons x xs ih =>
    have := ih _ (by simpa using h)
    exact isSome_alGet_delete _ _ _ (isSome_alGet_delete _ _ _ this)

theorem foldl_evictRoom_waiting (xs : List (RoomId × Room)) (st : ServerState) :
    (xs.foldl evictRoom st).waitingUsers = st.waitingUsers := by
  induction xs generalizing st with
  | nil => rfl
  | cons x xs ih => simpa using ih (evictRoom st x)

theorem foldl_evictRoom_socket (xs : List (RoomId × Room)) (st : ServerState)
    (k : Handle)
    (h : (alGet (xs.foldl evictRoom st).socketToRoom k).isSome) :
    (alGet st.socketToRoom k).isSome := by
  induction xs generalizing st with
  | nil => simpa using h
  | cons x xs ih =>
    have := ih (evictRoom st x) (by simpa using h)
    exact isSome_alGet_delete _ _ _ (isSome_alGet_delete _ _ _ this)

theorem applyRateLimit_fields (h : Handle) (b : Bool) (now : Nat)
    (s : ServerState) :
    (applyRateLimit h b now s).2.waitingUsers = s.waitingUsers ∧
    (applyRateLimit h b now s).2.socketToRoom = s.socketToRoom ∧
    (applyRateLimit h b now s).2.activeRooms = s.activeRooms := by
  cases b <;> simp [applyRateLimit]

/-!
### Branch-evaluation equations for the handlers
-/

theorem joinQueue_invalid (connected : List Handle) (now : Nat) (rid : RoomId)
    (draw : Nat) (h : Handle) (d : UserData) (s : ServerState) (e : String)
    (hv : validateUserData d = .error e) :
    joinQueue connected now rid draw h d s = (s, [.errorEvent h e]) := by
  simp only [joinQueue, hv]

theorem joinQueue_already (connected : List Handle) (now : Nat) (rid : RoomId)
    (draw : Nat) (h : Handle) (d : UserData) (s : ServerState) (v : UserData)
    (hv : validateUserData d = .ok v)
    (hg : alHas s.waitingUsers h = true ∨ alHas s.socketToRoom h = true) :
    joinQueue connected now rid draw h d s =
      (s, [.errorEvent h "Already in queue or chat"]) := by
  simp only [joinQueue, hv]
  rw [if_pos hg]

theorem joinQueue_nomatch (connected : List Handle) (now : Nat) (rid : RoomId)
    (draw : Nat) (h : Handle) (d : UserData) (s : ServerState) (v : UserData)
    (hv : validateUserData d = .ok v)
    (hg : ¬ (alHas s.waitingUsers h = true ∨ alHas s.socketToRoom h = true))
    (hfm : findMatch s.waitingUsers (mkUser v now) h draw = none) :
    joinQueue connected now rid draw h d s =
      ({ s with waitingUsers := alSet s.waitingUsers h (mkUser v now) },
       [.searching h]) := by
  have hfm' : findMatch s.waitingUsers
      ⟨v.username, v.gender, v.preferredGender, v.interests, now⟩ h draw =
      none := hfm
  simp only [joinQueue, hv]
  rw [if_neg hg]
  simp only [hfm']
  rfl

theorem joinQueue_stale (connected : List Handle) (now : Nat) (rid : RoomId)
    (draw : Nat) (h : Handle) (d : UserData) (s : ServerState) (v : UserData)
    (m : MatchCand) (hv : validateUserData d = .ok v)
    (hg : ¬ (alHas s.waitingUsers h = true ∨ alHas s.socketToRoom h = true))
    (hfm : findMatch s.waitingUsers (mkUser v now) h draw = some m)
    (hc : connected.contains m.socketId = false) :
    joinQueue connected now rid draw h d s =
      ({ s with waitingUsers := alSet (alDelete s.waitingUsers m.socketId) h (mkUser v now) },
       [.searching h]) := by
  have hfm' : findMatch s.waitingUsers
      ⟨v.username, v.gender, v.preferredGender, v.interests, now⟩ h draw =
      some m := hfm
  simp only [joinQueue, hv]
  rw [if_neg hg]
  simp only [hfm']
  rw [if_pos (by simpa using hc)]
  rfl

theorem joinQueue_success (connected : List Handle) (now : Nat) (rid : RoomId)
    (draw : Nat) (h : Handle) (d : UserData) (s : ServerState) (v : UserData)
    (m : MatchCand) (hv : validateUserData d = .ok v)
    (hg : ¬ (alHas s.waitingUsers h = true ∨ alHas s.socketToRoom h = true))
    (hfm : findMatch s.waitingUsers (mkUser v now) h draw = some m)
    (hc : connected.contains m.socketId = true) :
    joinQueue connected now rid draw h d s =
      ({ s with
          waitingUsers := alDelete s.waitingUsers m.socketId
          activeRooms := alSet s.activeRooms rid (mkRoom h (mkUser v now) m now)
          socketToRoom := alSet (alSet s.socketToRoom h rid) m.socketId rid },
       [.matchFound h rid m.user m.commonInterests,
        .matchFound m.socketId rid (mkUser v now) m.commonInterests]) := by
  have hfm' : findMatch s.waitingUsers
      ⟨v.username, v.gender, v.preferredGender, v.interests, now⟩ h draw =
      some m := hfm
  simp only [joinQueue, hv]
  rw [if_neg hg]
  simp only [hfm']
  rw [if_neg (by simpa using hc)]
  rfl

theorem endChat_not_bound (h : Handle) (s : ServerState)
    (hx : alGet s.socketToRoom h = none) : endChat h s = (s, []) := by
  simp only [endChat, hx]

theorem endChat_stale (h : Handle) (s : ServerState) (rid : RoomId)
    (hx : alGet s.socketToRoom h = some rid)
    (hr : alGet s.activeRooms rid = none) :
    endChat h s = ({ s with activeRooms := alDelete s.activeRooms rid },
      [.chatEnded rid "User left the chat"]) := by
  simp only [endChat, hx, hr]

theorem endChat_bound (h : Handle) (s : ServerState) (rid : RoomId)
    (room : Room) (hx : alGet s.socketToRoom h = some rid)
    (hr : alGet s.activeRooms rid = some room) :
    endChat h s =
      ({ s with
          socketToRoom := removeRoomMappings s.socketToRoom room
          activeRooms := alDelete s.activeRooms rid },
       [.chatEnded rid "User left the chat"]) := by
  simp only [endChat, hx, hr]

theorem disconnect_not_bound (h : Handle) (s : ServerState)
    (hx : alGet s.socketToRoom h = none) :
    disconnect h s =
      ({ s with
          waitingUsers := alDelete s.waitingUsers h
          messageRateLimits := alDelete s.messageRateLimits h
          mediaRateLimits := alDelete s.mediaRateLimits h }, []) := by
  simp only [disconnect, hx]

theorem disconnect_stale (h : Handle) (s : ServerState) (rid : RoomId)
    (hx : alGet s.socketToRoom h = some rid)
    (hr : alGet s.activeRooms rid = none) :
    disconnect h s =
      ({ s with
          waitingUsers := alDelete s.waitingUsers h
          messageRateLimits := alDelete s.messageRateLimits h
          mediaRateLimits := alDelete s.mediaRateLimits h
          socketToRoom := alDelete s.socketToRoom h
          activeRooms := alDelete s.activeRooms rid },
       [.chatEndedBroadcast h rid "Partner disconnected"]) := by
  simp only [disconnect, hx, hr]

theorem disconnect_bound (h : Handle) (s : ServerState) (rid : RoomId)
    (room : Room) (hx : alGet s.socketToRoom h = some rid)
    (hr : alGet s.activeRooms rid = some room) :
    disconnect h s =
      ({ s with
          waitingUsers := alDelete s.waitingUsers h
          messageRateLimits := alDelete s.messageRateLimits h
          mediaRateLimits := alDelete s.mediaRateLimits h
          socketToRoom := alDelete (alDelete s.socketToRoom
            (if room.user1.socketId = h then room.user2.socketId
             else room.user1.socketId)) h
          activeRooms := alDelete s.activeRooms rid },
       [.chatEndedBroadcast h rid "Partner disconnected"]) := by
  simp only [disconnect, hx, hr]

theorem sendMessage_rate_limited (now : Nat) (mid : String)
    (vres : Option String) (h : Handle) (data : MsgData) (s : ServerState)
    (hr : (applyRateLimit h (data.type == "image" || data.type == "video")
      now s).1 = false) :
    sendMessage now mid vres h data s =
      ((applyRateLimit h (data.type == "image" || data.type == "video") now s).2,
       [.errorEvent h
          (rateLimitErrorMsg (data.type == "image" || data.type == "video"))]) := by
  simp only [sendMessage]
  rw [if_pos (by simp [hr])]

theorem sendMessage_invalid (now : Nat) (mid : String) (err : String)
    (h : Handle) (data : MsgData) (s : ServerState)
    (hr : (applyRateLimit h (data.type == "image" || data.type == "video")
      now s).1 = true) :
    sendMessage now mid (some err) h data s =
      ((applyRateLimit h (data.type == "image" || data.type == "video") now s).2,
       [.errorEvent h err]) := by
  simp only [sendMessage]
  rw [if_neg (by simp [hr])]

theorem sendMessage_not_bound (now : Nat) (mid : String) (h : Handle)
    (data : MsgData) (s : ServerState)
    (hr : (applyRateLimit h (data.type == "image" || data.type == "video")
      now s).1 = true)
    (hx : alGet s.socketToRoom h = none) :
    sendMessage now mid none h data s =
      ((applyRateLimit h (data.type == "image" || data.type == "video") now s).2,
       [.errorEvent h "Not in a chat room"]) := by
  obtain ⟨-, hsk, -⟩ :=
    applyRateLimit_fields h (data.type == "image" || data.type == "video") now s
  simp only [sendMessage]
  rw [if_neg (by simp [hr])]
  simp only [hsk, hx]

theorem sendMessage_stale (now : Nat) (mid : String) (h : Handle)
    (data : MsgData) (s : ServerState) (rid : RoomId)
    (hr : (applyRateLimit h (data.type == "image" || data.type == "video")
      now s).1 = true)
    (hx : alGet s.socketToRoom h = some rid)
    (he : alHas s.activeRooms rid = false) :
    sendMessage now mid none h data s =
      ({ (applyRateLimit h (data.type == "image" || data.type == "video")
            now s).2 with
          socketToRoom := alDelete s.socketToRoom h },
       [.errorEvent h "Chat room no longer exists"]) := by
  obtain ⟨-, hsk, ha⟩ :=
    applyRateLimit_fields h (data.type == "image" || data.type == "video") now s
  simp only [sendMessage]
  rw [if_neg (by simp [hr])]
  simp only [hsk, hx]
  rw [if_pos (by simp [ha, he])]

theorem sendMessage_delivers (now : Nat) (mid : String) (h : Handle)
    (data : MsgData) (s : ServerState) (rid : RoomId)
    (hr : (applyRateLimit h (data.type == "image" || data.type == "video")
      now s).1 = true)
    (hx : alGet s.socketToRoom h = some rid)
    (he : alHas s.activeRooms rid = true) :
    sendMessage now mid none h data s =
      ((applyRateLimit h (data.type == "image" || data.type == "video") now s).2,
       [.newMessage rid ⟨mid, h, data.content, data.type, now⟩]) := by
  obtain ⟨-, hsk, ha⟩ :=
    applyRateLimit_fields h (data.type == "image" || data.type == "video") now s
  simp only [sendMessage]
  rw [if_neg (by simp [hr])]
  simp only [hsk, hx]
  rw [if_neg (by simp [ha, he])]

/-!
### State-shape lemmas
-/

theorem typingRelay_state (h : Handle) (b : Bool) (s : ServerState) :
    (typingRelay h b s).1 = s := by
  unfold typingRelay
  cases hx : alGet s.socketToRoom h with
  | none => rfl
  | some rid =>
    by_cases hr : alHas s.activeRooms rid = true <;> simp [hr]

theorem signalRelay_state (h : Handle) (kind : String) (s : ServerState) :
    (signalRelay h kind s).1 = s := by
  unfold signalRelay
  cases hx : alGet s.socketToRoom h with
  | none => rfl
  | some rid =>
    by_cases hr : alHas s.activeRooms rid = true <;> simp [hr]

theorem sendMessage_state (now : Nat) (mid : String) (vres : Option String)
    (h : Handle) (data : MsgData) (s : ServerState) :
    (sendMessage now mid vres h data s).1.waitingUsers = s.waitingUsers ∧
    ((sendMessage now mid vres h data s).1.socketToRoom = s.socketToRoom ∨
      (sendMessage now mid vres h data s).1.socketToRoom =
        alDelete s.socketToRoom h) ∧
    (sendMessage now mid vres h data s).1.activeRooms = s.activeRooms := by
  obtain ⟨hw, hsk, ha⟩ :=
    applyRateLimit_fields h (data.type == "image" || data.type == "video") now s
  cases hr : (applyRateLimit h (data.type == "image" || data.type == "video")
      now s).1 with
  | false =>
    rw [sendMessage_rate_limited now mid vres h data s hr]
    exact ⟨hw, Or.inl hsk, ha⟩
  | true =>
    cases vres with
    | some err =>
      rw [sendMessage_invalid now mid err h data s hr]
      exact ⟨hw, Or.inl hsk, ha⟩
    | none =>
      cases hx : alGet s.socketToRoom h with
      | none =>
        rw [sendMessage_not_bound now mid h data s hr hx]
        exact ⟨hw, Or.inl hsk, ha⟩
      | some rid =>
        cases hhas : alHas s.activeRooms rid with
        | false =>
          rw [sendMessage_stale now mid h data s rid hr hx hhas]
          exact ⟨hw, Or.inr rfl, ha⟩
        | true =>
          rw [sendMessage_delivers now mid h data s rid hr hx hhas]
          exact ⟨hw, Or.inl hsk, ha⟩

theorem endChat_state (h : Handle) (s : ServerState) :
    (endChat h s).1.waitingUsers = s.waitingUsers ∧
    (∀ k, (alGet (endChat h s).1.socketToRoom k).isSome →
      (alGet s.socketToRoom k).isSome) := by
  cases hx : alGet s.socketToRoom h with
  | none =>
    rw [endChat_not_bound h s hx]
    exact ⟨rfl, fun k hk => hk⟩
  | some rid =>
    cases hr : alGet s.activeRooms rid with
    | none =>
      rw [endChat_stale h s rid hx hr]
      exact ⟨rfl, fun k hk => hk⟩
    | some room =>
      rw [endChat_bound h s rid room hx hr]
      exact ⟨rfl, fun k hk =>
        isSome_alGet_delete _ _ _ (isSome_alGet_delete _ _ _ hk)⟩

theorem disconnect_state (h : Handle) (s : ServerState) :
    (disconnect h s).1.waitingUsers = alDelete s.waitingUsers h ∧
    (∀ k, (alGet (disconnect h s).1.socketToRoom k).isSome →
      (alGet s.socketToRoom k).isSome) := by
  cases hx : alGet s.socketToRoom h with
  | none =>
    rw [disconnect_not_bound h s hx]
    exact ⟨rfl, fun k hk => hk⟩
  | some rid =>
    cases hr : alGet s.activeRooms rid with
    | none =>
      rw [disconnect_stale h s rid hx hr]
      exact ⟨rfl, fun k hk => isSome_alGet_delete _ _ _ hk⟩
    | some room =>
      rw [disconnect_bound h s rid room hx hr]
      exact ⟨rfl, fun k hk =>
        isSome_alGet_delete _ _ _ (isSome_alGet_delete _ _ _ hk)⟩

/-!
### Per-operation invariant preservation
-/

theorem joinQueue_inv (connected : List Handle) (now : Nat) (rid : RoomId)
    (draw : Nat) (h : Handle) (d : UserData) (s : ServerState)
    (hInv : queueSessionDisjoint s) :
    queueSessionDisjoint (joinQueue connected now rid draw h d s).1 := by
  obtain ⟨hdisj, hnd⟩ := hInv
  cases hv : validateUserData d with
  | error e =>
    rw [joinQueue_invalid connected now rid draw h d s e hv]
    exact ⟨hdisj, hnd⟩
  | ok v =>
    by_cases hg : alHas s.waitingUsers h = true ∨ alHas s.socketToRoom h = true
    · rw [joinQueue_already connected now rid draw h d s v hv hg]
      exact ⟨hdisj, hnd⟩
    · push_neg at hg
      obtain ⟨hgw, hgr⟩ := hg
      have hgw' : alGet s.waitingUsers h = none := by
        cases hq : alGet s.waitingUsers h with
        | none => rfl
        | some u => exact absurd (by simp [alHas, hq]) hgw
      have hgr' : alGet s.socketToRoom h = none := by
        cases hq : alGet s.socketToRoom h with
        | none => rfl
        | some r => exact absurd (by simp [alHas, hq]) hgr
      have hg' : ¬ (alHas s.waitingUsers h = true ∨
          alHas s.socketToRoom h = true) := by
        push_neg
        exact ⟨hgw, hgr⟩
      cases hfm : findMatch s.waitingUsers (mkUser v now) h draw with
      | none =>
        rw [joinQueue_nomatch connected now rid draw h d s v hv hg' hfm]
        unfold queueSessionDisjoint
        dsimp only
        refine ⟨fun k hk1 hk2 => ?_, nodupKeys_set _ _ _ hnd⟩
        by_cases hkh : k = h
        · subst hkh
          rw [hgr'] at hk2
          exact absurd hk2 (by simp)
        · rw [alGet_set_ne _ _ _ _ hkh] at hk1
          exact hdisj k hk1 hk2
      | some m =>
        have hms := findMatch_socketId_ne s.waitingUsers _ h draw m hfm
        cases hc : connected.contains m.socketId with
        | true =>
          rw [joinQueue_success connected now rid draw h d s v m hv hg' hfm hc]
          unfold queueSessionDisjoint
          dsimp only
          refine ⟨fun k hk1 hk2 => ?_, nodupKeys_delete _ _ hnd⟩
          by_cases hkm : k = m.socketId
          · subst hkm
            rw [alGet_delete_self] at hk1
            exact absurd hk1 (by simp)
          · rw [alGet_delete_ne _ _ _ hkm] at hk1
            by_cases hkh : k = h
            · subst hkh
              rw [hgw'] at hk1
              exact absurd hk1 (by simp)
            · rw [alGet_set_ne _ _ _ _ hkm, alGet_set_ne _ _ _ _ hkh] at hk2
              exact hdisj k hk1 hk2
        | false =>
          rw [joinQueue_stale connected now rid draw h d s v m hv hg' hfm hc]
          unfold queueSessionDisjoint
          dsimp only
          refine ⟨fun k hk1 hk2 => ?_,
            nodupKeys_set _ _ _ (nodupKeys_delete _ _ hnd)⟩
          by_cases hkh : k = h
          · subst hkh
            rw [hgr'] at hk2
            exact absurd hk2 (by simp)
          · rw [alGet_set_ne _ _ _ _ hkh] at hk1
            exact hdisj k (isSome_alGet_delete _ _ _ hk1) hk2

theorem sendMessage_inv (now : Nat) (mid : String) (vres : Option String)
    (h : Handle) (data : MsgData) (s : ServerState)
    (hInv : queueSessionDisjoint s) :
    queueSessionDisjoint (sendMessage now mid vres h data s).1 := by
  obtain ⟨hdisj, hnd⟩ := hInv
  obtain ⟨hw, hsk, -⟩ := sendMessage_state now mid vres h data s
  refine ⟨fun k hk1 hk2 => ?_, by rw [hw]; exact hnd⟩
  rw [hw] at hk1
  rcases hsk with hsk | hsk
  · rw [hsk] at hk2
    exact hdisj k hk1 hk2
  · rw [hsk] at hk2
    exact hdisj k hk1 (isSome_alGet_delete _ _ _ hk2)

theorem endChat_inv (h : Handle) (s : ServerState)
    (hInv : queueSessionDisjoint s) :
    queueSessionDisjoint (endChat h s).1 := by
  obtain ⟨hdisj, hnd⟩ := hInv
  obtain ⟨hw, hsk⟩ := endChat_state h s
  refine ⟨fun k hk1 hk2 => ?_, by rw [hw]; exact hnd⟩
  rw [hw] at hk1
  exact hdisj k hk1 (hsk k hk2)

theorem disconnect_inv (h : Handle) (s : ServerState)
    (hInv : queueSessionDisjoint s) :
    queueSessionDisjoint (disconnect h s).1 := by
  obtain ⟨hdisj, hnd⟩ := hInv
  obtain ⟨hw, hsk⟩ := disconnect_state h s
  refine ⟨fun k hk1 hk2 => ?_, by rw [hw]; exact nodupKeys_delete _ _ hnd⟩
  rw [hw] at hk1
  exact hdisj k (isSome_alGet_delete _ _ _ hk1) (hsk k hk2)

theorem cleanupStaleRooms_inv (cfg : Config) (now : Nat) (s : ServerState)
    (hInv : queueSessionDisjoint s) :
    queueSessionDisjoint (cleanupStaleRooms cfg now s).1 := by
  obtain ⟨hdisj, hnd⟩ := hInv
  refine ⟨fun k hk1 hk2 => ?_, hnd⟩
  exact hdisj k hk1 (isSome_foldl_removeRoomMappings _ _ _ hk2)

theorem enforceWaitingLimit_state (cfg : Config) (s : ServerState) :
    (enforceWaitingLimit cfg s).socketToRoom = s.socketToRoom ∧
    (enforceWaitingLimit cfg s).activeRooms = s.activeRooms ∧
    (∀ k, (alGet (enforceWaitingLimit cfg s).waitingUsers k).isSome →
      (alGet s.waitingUsers k).isSome) ∧
    (NodupKeys s.waitingUsers → NodupKeys (enforceWaitingLimit cfg s).waitingUsers) := by
  unfold enforceWaitingLimit
  by_cases hc : s.waitingUsers.length > cfg.maxWaitingUsers
  · rw [if_pos hc]
    dsimp only
    exact ⟨rfl, rfl, fun k hk => isSome_foldl_alDelete _ _ _ hk,
      fun hnd => nodupKeys_foldl_alDelete _ _ hnd⟩
  · rw [if_neg hc]
    exact ⟨rfl, rfl, fun k hk => hk, fun hnd => hnd⟩

theorem enforceRoomLimit_state (cfg : Config) (s : ServerState) :
    (enforceRoomLimit cfg s).waitingUsers = s.waitingUsers ∧
    (∀ k, (alGet (enforceRoomLimit cfg s).socketToRoom k).isSome →
      (alGet s.socketToRoom k).isSome) := by
  unfold enforceRoomLimit
  by_cases hc : s.activeRooms.length > cfg.maxActiveRooms
  · rw [if_pos hc]
    dsimp only
    exact ⟨foldl_evictRoom_waiting _ _, fun k hk => foldl_evictRoom_socket _ _ _ hk⟩
  · rw [if_neg hc]
    exact ⟨rfl, fun k hk => hk⟩

theorem enforceMemoryLimits_inv (cfg : Config) (s : ServerState)
    (hInv : queueSessionDisjoint s) :
    queueSessionDisjoint (enforceMemoryLimits cfg s).1 := by
  obtain ⟨hdisj, hnd⟩ := hInv
  obtain ⟨hw1, -, hshrink1, hnd1⟩ := enforceWaitingLimit_state cfg s
  obtain ⟨hw2, hshrink2⟩ := enforceRoomLimit_state cfg (enforceWaitingLimit cfg s)
  refine ⟨fun k hk1 hk2 => ?_, by rw [show (enforceMemoryLimits cfg s).1 =
    enforceRoomLimit cfg (enforceWaitingLimit cfg s) from rfl, hw2]; exact hnd1 hnd⟩
  have hk1' : (alGet (enforceWaitingLimit cfg s).waitingUsers k).isSome := by
    rw [show (enforceMemoryLimits cfg s).1 =
      enforceRoomLimit cfg (enforceWaitingLimit cfg s) from rfl, hw2] at hk1
    exact hk1
  have hk2' : (alGet (enforceWaitingLimit cfg s).socketToRoom k).isSome :=
    hshrink2 k hk2
  rw [hw1] at hk2'
  exact hdisj k (hshrink1 k hk1') hk2'

/-- Claim C5 — the disjointness invariant (never simultaneously waiting and
in a session; at most one waiting entry per handle) holds initially and is
preserved by every engine operation. -/
theorem queue_session_disjoint_invariant :
    queueSessionDisjoint initialState ∧
    ∀ (cfg : Config) (op : Op) (s : ServerState),
      queueSessionDisjoint s → queueSessionDisjoint (applyOp cfg op s).1 := by
  constructor
  · exact ⟨fun k hk1 _ => by simp [initialState, alGet] at hk1,
      by simp [initialState, NodupKeys, alKeys]⟩
  · intro cfg op s hInv
    obtain ⟨hdisj, hnd⟩ := hInv
    cases op with
    | join connected now rid draw h d =>
      exact joinQueue_inv connected now rid draw h d s ⟨hdisj, hnd⟩
    | leave h =>
      refine ⟨fun k hk1 hk2 => ?_, nodupKeys_delete _ _ hnd⟩
      exact hdisj k (isSome_alGet_delete _ _ _ hk1) hk2
    | message now mid vres h data =>
      exact sendMessage_inv now mid vres h data s ⟨hdisj, hnd⟩
    | typing h b =>
      rw [show (applyOp cfg (.typing h b) s).1 = s from typingRelay_state h b s]
      exact ⟨hdisj, hnd⟩
    | signal h kind =>
      rw [show (applyOp cfg (.signal h kind) s).1 = s from
        signalRelay_state h kind s]
      exact ⟨hdisj, hnd⟩
    | endSession h => exact endChat_inv h s ⟨hdisj, hnd⟩
    | drop h => exact disconnect_inv h s ⟨hdisj, hnd⟩
    | sweepQueue now =>
      refine ⟨fun k hk1 hk2 => ?_, nodupKeys_filter _ _ hnd⟩
      exact hdisj k (isSome_alGet_filter _ _ _ hk1) hk2
    | sweepRooms now => exact cleanupStaleRooms_inv cfg now s ⟨hdisj, hnd⟩
    | sweepRate now => exact ⟨hdisj, hnd⟩
    | sweepCapacity => exact enforceMemoryLimits_inv cfg s ⟨hdisj, hnd⟩

/-- Claim C5 witness: the invariant holds after a concrete join-queue
operation applied to a concretely-invariant state. -/
theorem queue_session_disjoint_invariant_witness :
    let uB : User := ⟨"bob", "male", "female", ["music"], 0⟩
    let s : ServerState := ⟨[("b", uB)], [], [], [], []⟩
    queueSessionDisjoint
      (applyOp defaultConfig
        (.join ["a", "b"] 5 "r1" 0 "a" ⟨"alice", "female", "male", ["music"]⟩)
        s).1 := by
  intro uB s
  refine (queue_session_disjoint_invariant.2 defaultConfig _ s ⟨?_, ?_⟩)
  · intro k hk1 hk2
    simp [s, alGet] at hk2
  · simp [s, NodupKeys, alKeys]

/-!
## Sweep characterization (C1, C4)
-/

theorem cleanupStaleRooms_lookup (cfg : Config) (now : Nat) (s : ServerState)
    (rid : RoomId) (room : Room) (hn : NodupKeys s.activeRooms)
    (hm : (rid, room) ∈ s.activeRooms) :
    alGet (cleanupStaleRooms cfg now s).1.activeRooms rid =
      if now - room.createdAt > cfg.roomTimeout then none else some room := by
  unfold cleanupStaleRooms
  dsimp only
  rw [alGet_filter_of_mem _ _ _ _ hn hm]
  by_cases hc : now - room.createdAt > cfg.roomTimeout <;> simp [hc]

theorem cleanupStaleRooms_notifies (cfg : Config) (now : Nat) (s : ServerState)
    (rid : RoomId) (room : Room) (hm : (rid, room) ∈ s.activeRooms)
    (hstale : now - room.createdAt > cfg.roomTimeout) :
    Event.chatEnded rid "Session timeout" ∈ (cleanupStaleRooms cfg now s).2 := by
  unfold cleanupStaleRooms
  dsimp only
  refine List.mem_map.mpr ⟨(rid, room), ?_, rfl⟩
  exact List.mem_filter.mpr ⟨hm, by simpa using hstale⟩

/-- Claim C1 is false on the code: the room phase of the sweep evicts by
creation time, and message relay never updates any session timestamp.  This
concrete run relays a message successfully at time 150 (so the session is
active at sweep time), yet the immediately following sweep still evicts the
session and emits the timeout notice. -/
theorem room_sweep_ignores_activity_counterexample :
    (sendMessage 150 "m1" none "a" ⟨"hi", "text"⟩
        ⟨[], [("r1", ⟨⟨"a", ⟨"alice", "female", "male", ["music"], 0⟩⟩,
          ⟨"b", ⟨"bob", "male", "female", ["music"], 0⟩⟩, 0⟩)],
          [("a", "r1"), ("b", "r1")], [], []⟩).2 =
      [Event.newMessage "r1" ⟨"m1", "a", "hi", "text", 150⟩] ∧
    (cleanupStaleRooms ⟨1000, 500, 300000, 100⟩ 150
        (sendMessage 150 "m1" none "a" ⟨"hi", "text"⟩
          ⟨[], [("r1", ⟨⟨"a", ⟨"alice", "female", "male", ["music"], 0⟩⟩,
            ⟨"b", ⟨"bob", "male", "female", ["music"], 0⟩⟩, 0⟩)],
            [("a", "r1"), ("b", "r1")], [], []⟩).1).1.activeRooms = [] ∧
    (cleanupStaleRooms ⟨1000, 500, 300000, 100⟩ 150
        (sendMessage 150 "m1" none "a" ⟨"hi", "text"⟩
          ⟨[], [("r1", ⟨⟨"a", ⟨"alice", "female", "male", ["music"], 0⟩⟩,
            ⟨"b", ⟨"bob", "male", "female", ["music"], 0⟩⟩, 0⟩)],
            [("a", "r1"), ("b", "r1")], [], []⟩).1).2 =
      [Event.chatEnded "r1" "Session timeout"] := by
  refine ⟨?_, ?_, ?_⟩ <;> rfl

/-- Claim C1 (amended) — the sweep's room phase evicts exactly those
sessions whose creation timestamp is older than the room timeout; message
relay leaves the room registry (and hence the timestamp the sweep tests)
unchanged, so ongoing messaging does not protect a session from eviction. -/
theorem room_sweep_by_creation_not_activity (cfg : Config) (now : Nat)
    (s : ServerState) (rid : RoomId) (room : Room)
    (hn : NodupKeys s.activeRooms) (hm : (rid, room) ∈ s.activeRooms) :
    (alGet (cleanupStaleRooms cfg now s).1.activeRooms rid =
      if now - room.createdAt > cfg.roomTimeout then none else some room) ∧
    (∀ (mid : String) (vres : Option String) (h : Handle) (data : MsgData),
      (sendMessage now mid vres h data s).1.activeRooms = s.activeRooms) :=
  ⟨cleanupStaleRooms_lookup cfg now s rid room hn hm,
   fun mid vres h data => (sendMessage_state now mid vres h data s).2.2⟩

/-- Claim C1 (amended) witness: the characterization applied to a concrete
one-room state past its timeout. -/
theorem room_sweep_by_creation_not_activity_witness :
    (alGet (cleanupStaleRooms ⟨1000, 500, 300000, 100⟩ 150
      ⟨[], [("r1", ⟨⟨"a", ⟨"alice", "female", "male", ["music"], 0⟩⟩,
        ⟨"b", ⟨"bob", "male", "female", ["music"], 0⟩⟩, 0⟩)],
        [("a", "r1"), ("b", "r1")], [], []⟩).1.activeRooms "r1" =
      if 150 - 0 > 100 then none
      else some ⟨⟨"a", ⟨"alice", "female", "male", ["music"], 0⟩⟩,
        ⟨"b", ⟨"bob", "male", "female", ["music"], 0⟩⟩, 0⟩) := by
  exact (room_sweep_by_creation_not_activity ⟨1000, 500, 300000, 100⟩ 150
    ⟨[], [("r1", ⟨⟨"a", ⟨"alice", "female", "male", ["music"], 0⟩⟩,
      ⟨"b", ⟨"bob", "male", "female", ["music"], 0⟩⟩, 0⟩)],
      [("a", "r1"), ("b", "r1")], [], []⟩ "r1"
    ⟨⟨"a", ⟨"alice", "female", "male", ["music"], 0⟩⟩,
      ⟨"b", ⟨"bob", "male", "female", ["music"], 0⟩⟩, 0⟩
    (by decide) (by decide)).1

/-- Claim C4 is false on the code: capacity eviction emits no notification
at all.  Concretely, with a room ceiling of 1 (the ceiling is
environment-configurable) and two rooms, the oldest room `r1` is destroyed
with an empty event list, although a member could still be connected. -/
theorem capacity_eviction_silent_counterexample :
    (enforceMemoryLimits ⟨1000, 1, 300000, 1800000⟩
        ⟨[], [("r1", ⟨⟨"a", ⟨"alice", "female", "male", ["music"], 0⟩⟩,
          ⟨"b", ⟨"bob", "male", "female", ["music"], 0⟩⟩, 0⟩),
          ("r2", ⟨⟨"c", ⟨"cara", "female", "any", [], 0⟩⟩,
          ⟨"d", ⟨"dan", "male", "any", [], 0⟩⟩, 10⟩)],
          [("a", "r1"), ("b", "r1"), ("c", "r2"), ("d", "r2")], [], []⟩).2 =
      [] ∧
    alGet (enforceMemoryLimits ⟨1000, 1, 300000, 1800000⟩
        ⟨[], [("r1", ⟨⟨"a", ⟨"alice", "female", "male", ["music"], 0⟩⟩,
          ⟨"b", ⟨"bob", "male", "female", ["music"], 0⟩⟩, 0⟩),
          ("r2", ⟨⟨"c", ⟨"cara", "female", "any", [], 0⟩⟩,
          ⟨"d", ⟨"dan", "male", "any", [], 0⟩⟩, 10⟩)],
          [("a", "r1"), ("b", "r1"), ("c", "r2"), ("d", "r2")], [], []⟩).1.activeRooms
      "r1" = none := by
  exact ⟨rfl, rfl⟩

/-- Claim C4 (amended) — explicit end-chat, a member's disconnect and the
idle sweep all emit a session-ended notification with their reason code in
the same step that removes the session; Reaper capacity eviction removes
sessions without emitting anything. -/
theorem session_end_notification (s : ServerState) (h : Handle)
    (rid : RoomId) :
    (alGet s.socketToRoom h = some rid →
      (endChat h s).2 = [Event.chatEnded rid "User left the chat"] ∧
      alGet (endChat h s).1.activeRooms rid = none) ∧
    (alGet s.socketToRoom h = some rid →
      (disconnect h s).2 =
        [Event.chatEndedBroadcast h rid "Partner disconnected"] ∧
      alGet (disconnect h s).1.activeRooms rid = none) ∧
    (∀ (cfg : Config) (now : Nat) (room : Room), NodupKeys s.activeRooms →
      (rid, room) ∈ s.activeRooms → now - room.createdAt > cfg.roomTimeout →
      Event.chatEnded rid "Session timeout" ∈ (cleanupStaleRooms cfg now s).2 ∧
      alGet (cleanupStaleRooms cfg now s).1.activeRooms rid = none) ∧
    (∀ cfg : Config, (enforceMemoryLimits cfg s).2 = []) := by
  refine ⟨?_, ?_, ?_, fun cfg => rfl⟩
  · intro hx
    cases hr : alGet s.activeRooms rid with
    | none =>
      rw [endChat_stale h s rid hx hr]
      exact ⟨rfl, alGet_delete_self _ _⟩
    | some room =>
      rw [endChat_bound h s rid room hx hr]
      exact ⟨rfl, alGet_delete_self _ _⟩
  · intro hx
    cases hr : alGet s.activeRooms rid with
    | none =>
      rw [disconnect_stale h s rid hx hr]
      exact ⟨rfl, alGet_delete_self _ _⟩
    | some room =>
      rw [disconnect_bound h s rid room hx hr]
      exact ⟨rfl, alGet_delete_self _ _⟩
  · intro cfg now room hn hm hstale
    refine ⟨cleanupStaleRooms_notifies cfg now s rid room hm hstale, ?_⟩
    rw [cleanupStaleRooms_lookup cfg now s rid room hn hm, if_pos hstale]

/-- Claim C4 (amended) witness: the end-chat conjunct applied to a concrete
bound session. -/
theorem session_end_notification_witness :
    (endChat "a" ⟨[], [("r1", ⟨⟨"a", ⟨"alice", "female", "male", ["music"], 0⟩⟩,
        ⟨"b", ⟨"bob", "male", "female", ["music"], 0⟩⟩, 0⟩)],
        [("a", "r1"), ("b", "r1")], [], []⟩).2 =
      [Event.chatEnded "r1" "User left the chat"] ∧
    alGet (endChat "a" ⟨[], [("r1", ⟨⟨"a", ⟨"alice", "female", "male", ["music"], 0⟩⟩,
        ⟨"b", ⟨"bob", "male", "female", ["music"], 0⟩⟩, 0⟩)],
        [("a", "r1"), ("b", "r1")], [], []⟩).1.activeRooms "r1" = none := by
  exact (session_end_notification
    ⟨[], [("r1", ⟨⟨"a", ⟨"alice", "female", "male", ["music"], 0⟩⟩,
      ⟨"b", ⟨"bob", "male", "female", ["music"], 0⟩⟩, 0⟩)],
      [("a", "r1"), ("b", "r1")], [], []⟩ "a" "r1").1 (by decide)

/-!
## Relay precondition chain (C6)
-/

/-- Claim C6 — `send-message` checks the rate limit first (a violation
yields only the rate-limit error, whatever the rest of the state), then
the validation collaborator, then that the sender is bound to a room, then
that the bound room still exists (a stale binding is deleted); and a
`new-message` delivery happens only when every precondition passed. -/
theorem relay_precondition_order (now : Nat) (mid : String)
    (vres : Option String) (h : Handle) (data : MsgData) (s : ServerState) :
    ((applyRateLimit h (data.type == "image" || data.type == "video") now s).1
        = false →
      sendMessage now mid vres h data s =
        ((applyRateLimit h (data.type == "image" || data.type == "video")
            now s).2,
         [Event.errorEvent h
            (rateLimitErrorMsg (data.type == "image" || data.type == "video"))])) ∧
    ((applyRateLimit h (data.type == "image" || data.type == "video") now s).1
        = true →
      ∀ err, vres = some err →
      sendMessage now mid vres h data s =
        ((applyRateLimit h (data.type == "image" || data.type == "video")
            now s).2,
         [Event.errorEvent h err])) ∧
    ((applyRateLimit h (data.type == "image" || data.type == "video") now s).1
        = true →
      vres = none → alGet s.socketToRoom h = none →
      sendMessage now mid vres h data s =
        ((applyRateLimit h (data.type == "image" || data.type == "video")
            now s).2,
         [Event.errorEvent h "Not in a chat room"])) ∧
    ((applyRateLimit h (data.type == "image" || data.type == "video") now s).1
        = true →
      vres = none → ∀ rid, alGet s.socketToRoom h = some rid →
      alHas s.activeRooms rid = false →
      (sendMessage now mid vres h data s).2 =
        [Event.errorEvent h "Chat room no longer exists"] ∧
      alGet (sendMessage now mid vres h data s).1.socketToRoom h = none) ∧
    (∀ rid msg, Event.newMessage rid msg ∈ (sendMessage now mid vres h data s).2 →
      (applyRateLimit h (data.type == "image" || data.type == "video") now s).1
          = true ∧
      vres = none ∧ alGet s.socketToRoom h = some rid ∧
      alHas s.activeRooms rid = true) := by
  refine ⟨?_, ?_, ?_, ?_, ?_⟩
  · intro hr
    exact sendMessage_rate_limited now mid vres h data s hr
  · intro hr err hverr
    subst hverr
    exact sendMessage_invalid now mid err h data s hr
  · intro hr hvn hx
    subst hvn
    exact sendMessage_not_bound now mid h data s hr hx
  · intro hr hvn rid hx hhas
    subst hvn
    rw [sendMessage_stale now mid h data s rid hr hx hhas]
    exact ⟨rfl, alGet_delete_self _ _⟩
  · intro rid msg hmem
    cases hr : (applyRateLimit h (data.type == "image" || data.type == "video")
        now s).1 with
    | false =>
      rw [sendMessage_rate_limited now mid vres h data s hr] at hmem
      simp at hmem
    | true =>
      cases vres with
      | some err =>
        rw [sendMessage_invalid now mid err h data s hr] at hmem
        simp at hmem
      | none =>
        cases hx : alGet s.socketToRoom h with
        | none =>
          rw [sendMessage_not_bound now mid h data s hr hx] at hmem
          simp at hmem
        | some rid' =>
          cases hhas : alHas s.activeRooms rid' with
          | false =>
            rw [sendMessage_stale now mid h data s rid' hr hx hhas] at hmem
            simp at hmem
          | true =>
            rw [sendMessage_delivers now mid h data s rid' hr hx hhas] at hmem
            have heq : rid = rid' := by
              simp at hmem
              exact hmem.1
            subst heq
            exact ⟨rfl, rfl, rfl, hhas⟩

/-- Claim C6 witness: the not-in-a-room error at a concrete fresh state. -/
theorem relay_precondition_order_witness :
    sendMessage 0 "m1" none "a" ⟨"hi", "text"⟩ initialState =
      ((applyRateLimit "a" ("text" == "image" || "text" == "video") 0
          initialState).2,
       [Event.errorEvent "a" "Not in a chat room"]) := by
  exact (relay_precondition_order 0 "m1" none "a" ⟨"hi", "text"⟩
    initialState).2.2.1 (by decide) rfl (by decide)

/-!
## Rate-limiter lemmas (C7, C10)
-/

theorem checkRateLimit_no_reset (c ws now limit window : Nat)
    (hin : now - ws ≤ window) :
    checkRateLimit (some ⟨c, ws⟩) now limit window =
      (decide (c + 1 ≤ limit), ⟨c + 1, ws⟩) := by
  simp only [checkRateLimit, Option.getD]
  rw [if_neg (by omega)]

theorem checkRateLimit_reset (c ws now limit window : Nat)
    (hout : now - ws > window) :
    checkRateLimit (some ⟨c, ws⟩) now limit window =
      (decide (1 ≤ limit), ⟨1, now⟩) := by
  simp only [checkRateLimit, Option.getD]
  rw [if_pos (by omega)]

theorem checkRateLimit_fresh (t0 limit window : Nat) :
    checkRateLimit none t0 limit window = (decide (1 ≤ limit), ⟨1, t0⟩) := by
  simp only [checkRateLimit, Option.getD]
  rw [if_neg (by omega)]

theorem runCalls_within (limit window : Nat) (ts : List Nat) :
    ∀ (c t0 : Nat), (∀ t ∈ ts, t - t0 ≤ window) →
    (runCalls limit window (some ⟨c, t0⟩) ts).1 =
      (List.range ts.length).map (fun i => decide (c + i + 1 ≤ limit)) ∧
    (runCalls limit window (some ⟨c, t0⟩) ts).2 = some ⟨c + ts.length, t0⟩ := by
  induction ts with
  | nil => intro c t0 _; exact ⟨rfl, rfl⟩
  | cons t ts ih =>
    intro c t0 hts
    have hstep := checkRateLimit_no_reset c t0 t limit window
      (hts t (List.mem_cons_self _ _))
    obtain ⟨ih1, ih2⟩ := ih (c + 1) t0
      (fun t' ht' => hts t' (List.mem_cons_of_mem _ ht'))
    constructor
    · show (checkRateLimit (some ⟨c, t0⟩) t limit window).1 ::
        (runCalls limit window
          (some (checkRateLimit (some ⟨c, t0⟩) t limit window).2) ts).1 = _
      rw [hstep]
      dsimp only
      rw [ih1, List.length_cons, List.range_succ_eq_map, List.map_cons,
        List.map_map]
      refine congrArg₂ _ (by norm_num) ?_
      refine List.map_congr_left (fun i _ => ?_)
      simp only [Function.comp]
      exact decide_eq_decide.mpr (by omega)
    · show (runCalls limit window
        (some (checkRateLimit (some ⟨c, t0⟩) t limit window).2) ts).2 = _
      rw [hstep]
      dsimp only
      rw [ih2]
      refine congrArg some ?_
      rw [List.length_cons]
      exact congrArg₂ RateEntry.mk (by omega) rfl

theorem runCalls_fresh (limit window t0 : Nat) (ts : List Nat)
    (hts : ∀ t ∈ ts, t - t0 ≤ window) :
    (runCalls limit window none (t0 :: ts)).1 =
      (List.range (ts.length + 1)).map (fun i => decide (i + 1 ≤ limit)) ∧
    (runCalls limit window none (t0 :: ts)).2 = some ⟨ts.length + 1, t0⟩ := by
  have hstep := checkRateLimit_fresh t0 limit window
  obtain ⟨h1, h2⟩ := runCalls_within limit window ts 1 t0 hts
  constructor
  · show (checkRateLimit none t0 limit window).1 ::
      (runCalls limit window
        (some (checkRateLimit none t0 limit window).2) ts).1 = _
    rw [hstep]
    dsimp only
    rw [h1, List.range_succ_eq_map, List.map_cons, List.map_map]
    refine congrArg₂ _ (by norm_num) ?_
    refine List.map_congr_left (fun i _ => ?_)
    simp only [Function.comp]
    exact decide_eq_decide.mpr (by omega)
  · show (runCalls limit window
      (some (checkRateLimit none t0 limit window).2) ts).2 = _
    rw [hstep]
    dsimp only
    rw [h2]
    exact congrArg some (congrArg₂ RateEntry.mk (by omega) rfl)

theorem range_map_decide_replicate (n : Nat) :
    (List.range (n + 1)).map (fun i => decide (i + 1 ≤ n)) =
      List.replicate n true ++ [false] := by
  rw [List.range_succ, List.map_append]
  refine congrArg₂ _ ?_ (by simp)
  refine List.eq_replicate.mpr ⟨by simp, fun b hb => ?_⟩
  obtain ⟨i, hi, hb⟩ := List.mem_map.mp hb
  rw [← hb]
  simp only [decide_eq_true_eq]
  exact Nat.succ_le_of_lt (List.mem_range.mp hi)

/-- Claim C7 — on each call the window resets iff strictly more than the
window duration has elapsed since the window start, the counter is then
incremented, and the call is allowed iff the post-increment count is within
the limit; consequently, starting fresh, the first `limit` calls inside one
window are allowed, the `(limit+1)`-th call in the same window is rejected,
and the first call strictly after the window has elapsed is allowed again. -/
theorem rate_limiter_window_behaviour :
    (∀ (e : RateEntry) (now limit window : Nat),
      ((checkRateLimit (some e) now limit window).2 =
        if now - e.windowStart > window then ⟨1, now⟩
        else ⟨e.count + 1, e.windowStart⟩) ∧
      ((checkRateLimit (some e) now limit window).1 = true ↔
        (checkRateLimit (some e) now limit window).2.count ≤ limit)) ∧
    (∀ (limit window t0 : Nat) (ts : List Nat) (tNext : Nat),
      1 ≤ limit → ts.length = limit → (∀ t ∈ ts, t - t0 ≤ window) →
      t0 + window < tNext →
      (runCalls limit window none (t0 :: ts)).1 =
        List.replicate limit true ++ [false] ∧
      (checkRateLimit (runCalls limit window none (t0 :: ts)).2 tNext
        limit window).1 = true) := by
  constructor
  · intro e now limit window
    obtain ⟨c, ws⟩ := e
    by_cases hc : now - ws > window
    · rw [checkRateLimit_reset c ws now limit window hc]
      simp [hc]
    · rw [checkRateLimit_no_reset c ws now limit window (by omega)]
      simp [hc]
  · intro limit window t0 ts tNext hlim hlen hts hnext
    obtain ⟨h1, h2⟩ := runCalls_fresh limit window t0 ts hts
    refine ⟨by rw [h1, hlen, range_map_decide_replicate], ?_⟩
    rw [h2, checkRateLimit_reset (ts.length + 1) t0 tNext limit window
      (by omega)]
    simpa using hlim

/-- Claim C7 witness: the documented constants (limit 10, window 1000 ms),
eleven calls at time 0 and a twelfth at time 1001. -/
theorem rate_limiter_window_behaviour_witness :
    (runCalls 10 1000 none (0 :: List.replicate 10 0)).1 =
      List.replicate 10 true ++ [false] ∧
    (checkRateLimit (runCalls 10 1000 none (0 :: List.replicate 10 0)).2
      1001 10 1000).1 = true := by
  exact rate_limiter_window_behaviour.2 10 1000 0 (List.replicate 10 0) 1001
    (by decide) (by decide) (by decide) (by decide)

theorem runCalls_rejected (limit window : Nat) (ts : List Nat) :
    ∀ (c ws : Nat), limit ≤ c → (∀ t ∈ ts, t - ws ≤ window) →
    (runCalls limit window (some ⟨c, ws⟩) ts).1 =
      List.replicate ts.length false := by
  induction ts with
  | nil => intro c ws _ _; rfl
  | cons t ts ih =>
    intro c ws hc hts
    have hstep := checkRateLimit_no_reset c ws t limit window
      (hts t (List.mem_cons_self _ _))
    show (checkRateLimit (some ⟨c, ws⟩) t limit window).1 ::
      (runCalls limit window
        (some (checkRateLimit (some ⟨c, ws⟩) t limit window).2) ts).1 = _
    rw [hstep]
    dsimp only
    rw [ih (c + 1) ws (by omega)
      (fun t' ht' => hts t' (List.mem_cons_of_mem _ ht'))]
    rw [List.length_cons, List.replicate_succ]
    refine congrArg₂ _ ?_ rfl
    simp only [decide_eq_false_iff_not]
    omega

/-- Claim C10 — every call increments the stored counter, including
rejected calls; a rejected call never advances the window start (for any
positive configured limit); hence once the count has reached the limit,
every further call of the same traffic class inside the same window is
rejected, no matter how many rejected attempts pile up. -/
theorem rate_limiter_rejection_persists :
    (∀ (e : RateEntry) (now limit window : Nat),
      (checkRateLimit (some e) now limit window).2.count =
        (if now - e.windowStart > window then 0 else e.count) + 1) ∧
    (∀ (e : RateEntry) (now limit window : Nat), 1 ≤ limit →
      (checkRateLimit (some e) now limit window).1 = false →
      (checkRateLimit (some e) now limit window).2 =
        ⟨e.count + 1, e.windowStart⟩) ∧
    (∀ (limit window : Nat) (e : RateEntry) (ts : List Nat),
      limit ≤ e.count → (∀ t ∈ ts, t - e.windowStart ≤ window) →
      (runCalls limit window (some e) ts).1 =
        List.replicate ts.length false) := by
  refine ⟨?_, ?_, ?_⟩
  · intro e now limit window
    obtain ⟨c, ws⟩ := e
    by_cases hc : now - ws > window
    · rw [checkRateLimit_reset c ws now limit window hc, if_pos hc]
    · rw [checkRateLimit_no_reset c ws now limit window (by omega), if_neg hc]
  · intro e now limit window hlim hrej
    obtain ⟨c, ws⟩ := e
    by_cases hc : now - ws > window
    · rw [checkRateLimit_reset c ws now limit window hc] at hrej
      simp only [decide_eq_false_iff_not] at hrej
      omega
    · rw [checkRateLimit_no_reset c ws now limit window (by omega)]
  · intro limit window e ts hc hts
    obtain ⟨c, ws⟩ := e
    exact runCalls_rejected limit window ts c ws hc hts

/-- Claim C10 witness: an entry already at the documented limit 10 keeps
rejecting three further in-window calls, and a concrete rejected call
increments the count without moving the window start. -/
theorem rate_limiter_rejection_persists_witness :
    (runCalls 10 1000 (some ⟨10, 0⟩) [1, 2, 3]).1 =
      List.replicate 3 false ∧
    (checkRateLimit (some ⟨10, 5⟩) 20 10 1000).2 = ⟨11, 5⟩ := by
  constructor
  · exact rate_limiter_rejection_persists.2.2 10 1000 ⟨10, 0⟩ [1, 2, 3]
      (by decide) (by decide)
  · exact rate_limiter_rejection_persists.2.1 ⟨10, 5⟩ 20 10 1000 (by decide)
      (by decide)

/-!
## End-chat idempotence (C8)
-/

/-- Claim C8 — after an end-chat has torn a session down, a further
end-chat from either former member is a complete no-op: no error, no state
change, no second notification; and an end-chat from a handle bound to no
session is likewise a no-op. -/
theorem end_chat_idempotent (s : ServerState) (h h' : Handle) (rid : RoomId)
    (room : Room) (hx : alGet s.socketToRoom h = some rid)
    (hr : alGet s.activeRooms rid = some room)
    (hmem : h' = room.user1.socketId ∨ h' = room.user2.socketId) :
    endChat h' (endChat h s).1 = ((endChat h s).1, []) ∧
    (∀ (s0 : ServerState) (k : Handle), alGet s0.socketToRoom k = none →
      endChat k s0 = (s0, [])) := by
  constructor
  · apply endChat_not_bound
    rw [endChat_bound h s rid room hx hr]
    show alGet (removeRoomMappings s.socketToRoom room) h' = none
    unfold removeRoomMappings
    rcases hmem with hm | hm
    · subst hm
      by_cases he : room.user1.socketId = room.user2.socketId
      · rw [he, alGet_delete_self]
      · rw [alGet_delete_ne _ _ _ he, alGet_delete_self]
    · subst hm
      rw [alGet_delete_self]
  · intro s0 k hk
    exact endChat_not_bound k s0 hk

/-- Claim C8 witness: the second end-chat from the other former member of a
concrete just-ended session is a no-op. -/
theorem end_chat_idempotent_witness :
    endChat "b" (endChat "a"
      ⟨[], [("r1", ⟨⟨"a", ⟨"alice", "female", "male", ["music"], 0⟩⟩,
        ⟨"b", ⟨"bob", "male", "female", ["music"], 0⟩⟩, 0⟩)],
        [("a", "r1"), ("b", "r1")], [], []⟩).1 =
      ((endChat "a"
        ⟨[], [("r1", ⟨⟨"a", ⟨"alice", "female", "male", ["music"], 0⟩⟩,
          ⟨"b", ⟨"bob", "male", "female", ["music"], 0⟩⟩, 0⟩)],
          [("a", "r1"), ("b", "r1")], [], []⟩).1, []) := by
  exact (end_chat_idempotent
    ⟨[], [("r1", ⟨⟨"a", ⟨"alice", "female", "male", ["music"], 0⟩⟩,
      ⟨"b", ⟨"bob", "male", "female", ["music"], 0⟩⟩, 0⟩)],
      [("a", "r1"), ("b", "r1")], [], []⟩ "a" "b" "r1"
    ⟨⟨"a", ⟨"alice", "female", "male", ["music"], 0⟩⟩,
      ⟨"b", ⟨"bob", "male", "female", ["music"], 0⟩⟩, 0⟩
    (by decide) (by decide) (Or.inr (by decide))).1

/-!
## Stale-candidate handling (C9)
-/

/-- Claim C9 is false for the legacy `server.js` join-queue handler it
cites: when the matched candidate's socket is already gone (here `"b"`,
absent from the connected list), that variant still creates the room,
binds the dead candidate in `socketToRoom`, and notifies only the
requester — no `searching` acknowledgment, a half-bound session. -/
theorem stale_candidate_legacy_counterexample :
    (joinQueueLegacy ["a"] 5 "r1" 0 "a" ⟨"alice", "female", "male", ["music"]⟩
        ⟨[("b", ⟨"bob", "male", "female", ["music"], 0⟩)], [], [], [], []⟩).1.activeRooms =
      [("r1", ⟨⟨"a", ⟨"alice", "female", "male", ["music"], 5⟩⟩,
        ⟨"b", ⟨"bob", "male", "female", ["music"], 0⟩⟩, 5⟩)] ∧
    alGet (joinQueueLegacy ["a"] 5 "r1" 0 "a"
        ⟨"alice", "female", "male", ["music"]⟩
        ⟨[("b", ⟨"bob", "male", "female", ["music"], 0⟩)], [], [], [], []⟩).1.socketToRoom
      "b" = some "r1" ∧
    (joinQueueLegacy ["a"] 5 "r1" 0 "a" ⟨"alice", "female", "male", ["music"]⟩
        ⟨[("b", ⟨"bob", "male", "female", ["music"], 0⟩)], [], [], [], []⟩).2 =
      [Event.matchFound "a" "r1" ⟨"bob", "male", "female", ["music"], 0⟩
        ["music"]] := by
  refine ⟨?_, ?_, ?_⟩ <;> rfl

/-- Claim C9 (amended) — in the production variant, when the selected
candidate's socket has disappeared between the queue scan and room
creation, the handler re-queues the requester, emits only the `searching`
acknowledgment, and leaves the room registry and the socket-to-room map
untouched: no session and no half-bound state is created. -/
theorem stale_candidate_graceful (connected : List Handle) (now : Nat)
    (rid : RoomId) (draw : Nat) (h : Handle) (d : UserData) (s : ServerState)
    (v : UserData) (m : MatchCand) (hv : validateUserData d = .ok v)
    (hg : ¬ (alHas s.waitingUsers h = true ∨ alHas s.socketToRoom h = true))
    (hfm : findMatch s.waitingUsers (mkUser v now) h draw = some m)
    (hc : connected.contains m.socketId = false) :
    (joinQueue connected now rid draw h d s).2 = [Event.searching h] ∧
    (joinQueue connected now rid draw h d s).1.activeRooms = s.activeRooms ∧
    (joinQueue connected now rid draw h d s).1.socketToRoom = s.socketToRoom ∧
    alGet (joinQueue connected now rid draw h d s).1.waitingUsers h =
      some (mkUser v now) := by
  rw [joinQueue_stale connected now rid draw h d s v m hv hg hfm hc]
  exact ⟨rfl, rfl, rfl, alGet_set_self _ _ _⟩

/-- Claim C9 (amended) witness: the production handler applied to the same
concrete scenario as the legacy counterexample re-queues the requester. -/
theorem stale_candidate_graceful_witness :
    (joinQueue ["a"] 5 "r1" 0 "a" ⟨"alice", "female", "male", ["music"]⟩
        ⟨[("b", ⟨"bob", "male", "female", ["music"], 0⟩)], [], [], [], []⟩).2 =
      [Event.searching "a"] ∧
    (joinQueue ["a"] 5 "r1" 0 "a" ⟨"alice", "female", "male", ["music"]⟩
        ⟨[("b", ⟨"bob", "male", "female", ["music"], 0⟩)], [], [], [], []⟩).1.activeRooms =
      ([] : List (RoomId × Room)) := by
  have hr := stale_candidate_graceful ["a"] 5 "r1" 0 "a"
    ⟨"alice", "female", "male", ["music"]⟩
    ⟨[("b", ⟨"bob", "male", "female", ["music"], 0⟩)], [], [], [], []⟩
    ⟨"alice", "female", "male", ["music"]⟩
    ⟨⟨"bob", "male", "female", ["music"], 0⟩, "b", 1, ["music"]⟩
    (by rfl) (by decide) (by decide) (by decide)
  exact ⟨hr.1, hr.2.1⟩

end RandomChat
